import Mathlib

/-!
# Calculator: infix expressions evaluated through reverse Polish notation

A shallow embedding of `src/Calculator.cpp` (class `Calculator`) and theorems
about it.

Modelling conventions.

* `double` values are modelled by exact rationals `ℚ`: rounding, infinities and
  NaN are outside the model.  Every theorem below compares the program with
  itself or with an expression built from the same four operations, so nothing
  proved depends on a rounding rule.
* A `std::string` is a `List Char`, one `Char` per `char`; the code of a
  character is `Char.toNat`.
* A `std::vector` that is only appended to is a `List` in the same order.  The
  two stacks (`operator_stack`, `res_stack`) are lists whose HEAD is the top.
* A `throw std::runtime_error(msg)` and a violated `assert` are the two kinds of
  `Error`; every function that can throw or assert returns `Except Error _`.
* The function behind the unqualified call `abs(a)` is a parameter `absf` of the
  evaluator; `abs_double` and `abs_int` are the two functions it can name.
* The functions are first given as functions of the contents of the buffers.
  The functions whose name ends in `_on` are the same code as methods of an
  object whose buffers persist from one call to the next.
-/

namespace Calculator

/-- Arithmetic operations and parentheses: `enum Operator`. -/
inductive Operator
  | Plus
  | Minus
  | Multiply
  | Division
  | LeftBracket
  | RightBracket
  deriving DecidableEq, Repr

/-- A token, `std::variant<double, Operator>`. -/
inductive Token
  | num (value : ℚ)
  | op (o : Operator)
  deriving DecidableEq

/-- The ways a call can end without a value.  The first five are the messages
of the `std::runtime_error`s thrown by the program:
`empty_string` = "Empty string",
`not_ascii` = "Bad input, supports only ascii characters",
`bad_character` = "Couldnt parse, bad character",
`bad_parentheses` = "Bad parentheses",
`division_by_zero` = "Division by zero".
`assertion` is a violated `assert(...)`.
`no_fuel` is not a behaviour of the program: it marks that the iteration bound
given to the model of the tokenizer's `while` loop was used up. -/
inductive Error
  | empty_string
  | not_ascii
  | bad_character
  | bad_parentheses
  | division_by_zero
  | assertion
  | no_fuel
  deriving DecidableEq, Repr

open Operator Token

/-- Source lines 73-80. -/
def is_operator_arithmetic (o : Operator) : Bool :=
  if o = Plus ∨ o = Minus ∨ o = Multiply ∨ o = Division then true else false

/-- Source lines 82-92.  The leading `assert` is part of the model: a call with
a parenthesis as argument ends in `Error.assertion`. -/
def is_first_greater_priority (operator1 operator2 : Operator) : Except Error Bool :=
  if is_operator_arithmetic operator1 && is_operator_arithmetic operator2 then
    if (operator1 = Multiply ∨ operator1 = Division) ∧
        (operator2 = Plus ∨ operator2 = Minus) then
      .ok true
    else
      .ok false
  else
    .error Error.assertion

/-! ## Preprocessing (lines 94-110) -/

/-- Source lines 94-101: throws on the first character whose code exceeds 127. -/
def check_on_ascii : List Char → Except Error Unit
  | [] => .ok ()
  | c :: cs => if c.toNat > 127 then .error Error.not_ascii else check_on_ascii cs

/-- Source lines 103-110: every `','` is overwritten by `'.'`, in place. -/
def preprocess_str (str : List Char) : List Char :=
  str.map (fun c => if c = ',' then '.' else c)

/-! ## Tokenizer (lines 112-163) -/

/-- Value of a decimal digit character. -/
def digit_value (c : Char) : Nat := c.toNat - 48

/-- Value of a string of decimal digits, most significant first. -/
def digits_to_nat (ds : List Char) : Nat :=
  ds.foldl (fun n c => 10 * n + digit_value c) 0

/-! Model of the library call `std::from_chars(first, last, value)` for `double` with the
default `std::chars_format::general`, on the characters `s` from `first` to the end of the
string.  The pattern is the one the C++ standard gives: an optional `'-'` (no `'+'`), a
non-empty sequence of decimal digits optionally containing one `'.'`, and an optional
exponent (`e` or `E`, an optional sign, a non-empty sequence of digits); the longest match
is taken.  The pieces of the match are computed one after the other. -/

/-- The sign of the literal: `"-"` or nothing. -/
def sign_text (s : List Char) : List Char :=
  if s.head? = some '-' then ['-'] else []

/-- What follows the sign. -/
def after_sign (s : List Char) : List Char :=
  if s.head? = some '-' then s.tail else s

/-- The digits before the point. -/
def int_part (s : List Char) : List Char :=
  (after_sign s).takeWhile Char.isDigit

/-- What follows the digits before the point. -/
def after_int (s : List Char) : List Char :=
  (after_sign s).dropWhile Char.isDigit

/-- Whether a point follows the integer digits. -/
def has_point (s : List Char) : Bool :=
  (after_int s).head? = some '.'

/-- The digits after the point. -/
def frac_part (s : List Char) : List Char :=
  if has_point s then (after_int s).tail.takeWhile Char.isDigit else []

/-- The point and the digits after it, or nothing. -/
def point_text (s : List Char) : List Char :=
  if has_point s then '.' :: frac_part s else []

/-- What follows the mantissa. -/
def after_frac (s : List Char) : List Char :=
  if has_point s then (after_int s).tail.dropWhile Char.isDigit else after_int s

/-- The sign of the exponent, read after the exponent letter: `"+"`, `"-"` or nothing. -/
def exp_sign_text (s : List Char) : List Char :=
  if (after_frac s).tail.head? = some '+' then ['+']
  else if (after_frac s).tail.head? = some '-' then ['-']
  else []

/-- The digits of the exponent. -/
def exp_digits (s : List Char) : List Char :=
  ((after_frac s).tail.drop (exp_sign_text s).length).takeWhile Char.isDigit

/-- Whether an exponent is matched: an exponent letter followed, after an optional sign,
by at least one digit. -/
def has_exponent (s : List Char) : Bool :=
  ((after_frac s).head? = some 'e' ∨ (after_frac s).head? = some 'E') ∧ exp_digits s ≠ []

/-- The exponent as written, or nothing. -/
def exp_text (s : List Char) : List Char :=
  if has_exponent s then (after_frac s).take 1 ++ exp_sign_text s ++ exp_digits s else []

/-- The characters matched by the pattern. -/
def literal_text (s : List Char) : List Char :=
  sign_text s ++ int_part s ++ point_text s ++ exp_text s

/-- The value of the matched literal. -/
def literal_value (s : List Char) : ℚ :=
  let mant : ℚ := (digits_to_nat (int_part s ++ frac_part s) : ℚ) / 10 ^ (frac_part s).length
  let v : ℚ :=
    if has_exponent s then
      (if exp_sign_text s = ['-'] then mant / 10 ^ digits_to_nat (exp_digits s)
       else mant * 10 ^ digits_to_nat (exp_digits s))
    else mant
  if sign_text s = ['-'] then -v else v

/-- The call `std::from_chars(first, last, value)`.  `none` is
`std::errc::invalid_argument` (no digit in the mantissa); `some (v, n)` is a match of `n`
characters with value `v`, so that `ptr = first + n`.
The spellings `inf`, `infinity` and `nan` that the library also accepts have no rational
value and are not matched by this model, and a literal too large for a `double`
(`result_out_of_range`) has its exact value here. -/
def from_chars (s : List Char) : Option (ℚ × Nat) :=
  if int_part s = [] ∧ frac_part s = [] then none
  else some (literal_value s, (literal_text s).length)

/-- The `while(start_index < str.size())` loop of lines 121-162.  `s` is the part
of the string from `start_index` on, `normal_rotation` the tokens pushed so
far.  Each iteration of the source loop is one unfolding, and `fuel` bounds the
number of iterations; `start_index = ptr - str.data()` is `s.drop n`. -/
def scan_loop : Nat → List Char → List Token → Except Error (List Token)
  | _, [], normal_rotation => .ok normal_rotation
  | 0, _ :: _, _ => .error Error.no_fuel
  | fuel + 1, c :: cs, normal_rotation =>
    if c = ' ' then scan_loop fuel cs normal_rotation
    else if c = '+' then scan_loop fuel cs (normal_rotation ++ [op Plus])
    else if c = '-' then scan_loop fuel cs (normal_rotation ++ [op Minus])
    else if c = '*' then scan_loop fuel cs (normal_rotation ++ [op Multiply])
    else if c = '/' then scan_loop fuel cs (normal_rotation ++ [op Division])
    else if c = '(' then scan_loop fuel cs (normal_rotation ++ [op LeftBracket])
    else if c = ')' then scan_loop fuel cs (normal_rotation ++ [op RightBracket])
    else
      match from_chars (c :: cs) with
      | none => .error Error.bad_character
      | some (value, n) => scan_loop fuel ((c :: cs).drop n) (normal_rotation ++ [num value])

/-- Source lines 112-163.  The member buffer is cleared first, so the tokens
depend on `str` only.  `str[0]` of an empty string is the terminating `'\0'`,
which is neither sign.  The loop is given `str.length` iterations. -/
def parse_normal_rotation (str : List Char) : Except Error (List Token) :=
  scan_loop str.length str
    (if str.head? ≠ some '+' ∧ str.head? ≠ some '-' then [num 0, op Plus] else [num 0])

/-! ## Infix to postfix (lines 165-216) -/

/-- The inner `while` of lines 176-186 for an arithmetic operator `o`: pops
operators to the output until the stack is empty, its top is a left bracket,
or `o` has greater priority than the top. -/
def pop_for_operator (o : Operator) :
    List Operator → List Token → Except Error (List Operator × List Token)
  | [], reverse_polish => .ok ([], reverse_polish)
  | op2 :: stack, reverse_polish =>
    if op2 = LeftBracket then .ok (op2 :: stack, reverse_polish)
    else
      match is_first_greater_priority o op2 with
      | .error e => .error e
      | .ok true => .ok (op2 :: stack, reverse_polish)
      | .ok false => pop_for_operator o stack (reverse_polish ++ [op op2])

/-- The inner `while` of lines 191-199 for a right bracket: pops arithmetic
operators to the output until the stack is empty or its top is not
arithmetic. -/
def pop_for_bracket : List Operator → List Token → List Operator × List Token
  | [], reverse_polish => ([], reverse_polish)
  | op2 :: stack, reverse_polish =>
    if is_operator_arithmetic op2 then pop_for_bracket stack (reverse_polish ++ [op op2])
    else (op2 :: stack, reverse_polish)

/-- One iteration of the `for` loop of lines 170-208 on the state
`(operator_stack, reverse_polish)`. -/
def convert_token (state : List Operator × List Token) :
    Token → Except Error (List Operator × List Token)
  | num v => .ok (state.1, state.2 ++ [num v])
  | op o =>
    if is_operator_arithmetic o then
      match pop_for_operator o state.1 state.2 with
      | .error e => .error e
      | .ok (stack, reverse_polish) => .ok (o :: stack, reverse_polish)
    else if o = LeftBracket then .ok (o :: state.1, state.2)
    else if o = RightBracket then
      match pop_for_bracket state.1 state.2 with
      | (LeftBracket :: stack, reverse_polish) => .ok (stack, reverse_polish)
      | _ => .error Error.bad_parentheses
    else .ok state

/-- The `for` loop of lines 170-208. -/
def convert_loop (state : List Operator × List Token) :
    List Token → Except Error (List Operator × List Token)
  | [] => .ok state
  | token :: rest =>
    match convert_token state token with
    | .error e => .error e
    | .ok state1 => convert_loop state1 rest

/-- The final `while` of lines 209-215. -/
def drain_stack : List Operator → List Token → Except Error (List Token)
  | [], reverse_polish => .ok reverse_polish
  | top :: stack, reverse_polish =>
    if top = LeftBracket then .error Error.bad_parentheses
    else drain_stack stack (reverse_polish ++ [op top])

/-- Source lines 165-216, as a function of the contents of `normal_rotation`;
the result is the contents of `reverse_polish` (cleared first). -/
def convert_to_reverse_polish (normal_rotation : List Token) : Except Error (List Token) :=
  match convert_loop ([], []) normal_rotation with
  | .error e => .error e
  | .ok (stack, reverse_polish) => drain_stack stack reverse_polish

/-! ## Postfix evaluation (lines 218-255) -/

/-- The constant `eps = 1e-9` of line 242. -/
def eps : ℚ := 1 / 1000000000

/-- The call `abs(a)` of line 243 names a function the source file does not
declare: it is written unqualified and neither `<cmath>` nor `<cstdlib>` is
included, so the headers of the standard library in use decide what it is.
The evaluator therefore takes it as the parameter `absf`.  `abs_double` is the
floating-point absolute value, the magnitude the specification speaks of; it
is what the call names where the library declares the floating-point overloads
of `abs` in the global namespace. -/
def abs_double (a : ℚ) : ℚ := |a|

/-- The other function `abs(a)` can name: C's `int abs(int)`, reached through
the implicit conversion of the `double` argument to `int`, which discards the
fractional part (for a value in the range of `int`).  With the headers of the
GNU C++ library this is the only `abs` in the global namespace after the
includes of the source file (the overloads for `double` are in `std` only), so
it is the function the unqualified call names there. -/
def abs_int (a : ℚ) : ℚ := ((Int.tdiv a.num (a.den : Int)).natAbs : ℚ)

/-- Lines 235-249: the result of operator `o` on the popped values `a` (top) and
`b` (below it). -/
def apply_operator (absf : ℚ → ℚ) (o : Operator) (a b : ℚ) : Except Error ℚ :=
  match o with
  | Plus => .ok (b + a)
  | Minus => .ok (b - a)
  | Multiply => .ok (b * a)
  | Division => if absf a < eps then .error Error.division_by_zero else .ok (b / a)
  | _ => .error Error.assertion

/-- One iteration of the `for` loop of lines 223-252 on `res_stack`. -/
def calc_step (absf : ℚ → ℚ) (res_stack : List ℚ) : Token → Except Error (List ℚ)
  | num v => .ok (v :: res_stack)
  | op o =>
    if is_operator_arithmetic o then
      match res_stack with
      | a :: b :: rest =>
        match apply_operator absf o a b with
        | .error e => .error e
        | .ok res => .ok (res :: rest)
      | _ => .error Error.assertion
    else .error Error.assertion

/-- The `for` loop of lines 223-252. -/
def calc_loop (absf : ℚ → ℚ) (res_stack : List ℚ) : List Token → Except Error (List ℚ)
  | [] => .ok res_stack
  | token :: rest =>
    match calc_step absf res_stack token with
    | .error e => .error e
    | .ok res_stack1 => calc_loop absf res_stack1 rest

/-- Source lines 218-255, with the three structural `assert`s. -/
def calc_result_from_polish (absf : ℚ → ℚ) (reverse_polish : List Token) : Except Error ℚ :=
  if reverse_polish = [] then .error Error.assertion
  else
    match calc_loop absf [] reverse_polish with
    | .error e => .error e
    | .ok [res] => .ok res
    | .ok _ => .error Error.assertion

/-! ## The entry point (lines 53-71) -/

/-- Source lines 53-71 (the name is the source's). -/
def Caluclate (absf : ℚ → ℚ) (str : List Char) : Except Error ℚ :=
  if str = [] then .error Error.empty_string
  else
    match check_on_ascii str with
    | .error e => .error e
    | .ok _ =>
      match parse_normal_rotation (preprocess_str str) with
      | .error e => .error e
      | .ok normal_rotation =>
        match convert_to_reverse_polish normal_rotation with
        | .error e => .error e
        | .ok reverse_polish => calc_result_from_polish absf reverse_polish

/-! ## Definitions used in the statements and proofs -/

/-- Nesting depth after reading `toks` starting at depth `d`; `none` when a right bracket
arrives at depth `0`. -/
def paren_depth : Nat → List Token → Option Nat
  | d, [] => some d
  | d, op LeftBracket :: ts => paren_depth (d + 1) ts
  | 0, op RightBracket :: _ => none
  | d + 1, op RightBracket :: ts => paren_depth d ts
  | d, _ :: ts => paren_depth d ts

/-! ## Expression trees, for the statement of correctness -/

/-- An expression tree: a number, a parenthesised expression, or a binary operation. -/
inductive Expr
  | num (value : ℚ)
  | paren (e : Expr)
  | bin (o : Operator) (l r : Expr)

/-- Membership in the grammar
`E -> T ((Add|Subtract) T)*`, `T -> F ((Multiply|Divide) F)*`,
`F -> Number | LeftParen E RightParen`,
with the iterations read left-nested (`E -> T | E (Add|Subtract) T`,
`T -> F | T (Multiply|Divide) F`), which is the grouping of equal-priority operators from
left to right.  Level `0` is `F`, level `1` is `T`, level `2` is `E`. -/
def in_grammar : Nat → Expr → Bool
  | _, .num _ => true
  | _, .paren e => in_grammar 2 e
  | lvl, .bin o l r =>
    if o = Plus ∨ o = Minus then
      decide (2 ≤ lvl) && in_grammar 2 l && in_grammar 1 r
    else if o = Multiply ∨ o = Division then
      decide (1 ≤ lvl) && in_grammar 1 l && in_grammar 0 r
    else false

/-- The token sequence that the grammar derives along a tree. -/
def expr_tokens : Expr → List Token
  | .num v => [num v]
  | .paren e => op LeftBracket :: (expr_tokens e ++ [op RightBracket])
  | .bin o l r => expr_tokens l ++ op o :: expr_tokens r

/-- The tree in reverse Polish notation: operands first, operator last. -/
def polish_tokens : Expr → List Token
  | .num v => [num v]
  | .paren e => polish_tokens e
  | .bin o l r => polish_tokens l ++ polish_tokens r ++ [op o]

/-- The value of a tree in exact arithmetic. -/
def tree_value : Expr → ℚ
  | .num v => v
  | .paren e => tree_value e
  | .bin o l r =>
    match o with
    | Plus => tree_value l + tree_value r
    | Minus => tree_value l - tree_value r
    | Multiply => tree_value l * tree_value r
    | Division => tree_value l / tree_value r
    | _ => 0

/-- Some division of the tree has a divisor that the test `absf a < eps` rejects. -/
def division_fails (absf : ℚ → ℚ) : Expr → Bool
  | .num _ => false
  | .paren e => division_fails absf e
  | .bin o l r =>
    division_fails absf l || division_fails absf r ||
      (decide (o = Division) && decide (absf (tree_value r) < eps))

/-- Some division of the tree has a divisor of magnitude below `1e-9`. -/
def has_tiny_divisor : Expr → Bool
  | .num _ => false
  | .paren e => has_tiny_divisor e
  | .bin o l r =>
    has_tiny_divisor l || has_tiny_divisor r ||
      (decide (o = Division) && decide (|tree_value r| < 1 / 1000000000))

/-- The stack is empty or has a left bracket on top. -/
def barrier_top : List Operator → Bool
  | [] => true
  | LeftBracket :: _ => true
  | _ => false

/-- The stack is empty or has a left bracket, `Plus` or `Minus` on top. -/
def low_top : List Operator → Bool
  | [] => true
  | LeftBracket :: _ => true
  | Plus :: _ => true
  | Minus :: _ => true
  | _ => false

/-- The tree of "62834501 * 231 + (5534121 - 312312312) * 132 - 123125345" behind the
implicit `0 +` of the tokenizer. -/
def tree_of_test_4 : Expr :=
  .bin Minus
    (.bin Plus
      (.bin Plus (.num 0) (.bin Multiply (.num 62834501) (.num 231)))
      (.bin Multiply (.paren (.bin Minus (.num 5534121) (.num 312312312))) (.num 132)))
    (.num 123125345)

/-- The tree of "-1 + 5 - 3" behind the implicit `0` of the tokenizer. -/
def tree_of_test_0 : Expr :=
  .bin Minus (.bin Plus (.bin Minus (.num 0) (.num 1)) (.num 5)) (.num 3)

/-- The characters a numeric literal can be made of. -/
def literal_char (c : Char) : Bool :=
  c.isDigit || c = '.' || c = 'e' || c = 'E' || c = '+' || c = '-'

/-- The characters named by the specification: a digit, `'.'`, `','`, a space, or one of
the six operator characters. -/
def plain_char (c : Char) : Bool :=
  c.isDigit || c = '.' || c = ',' || c = ' ' || c = '+' || c = '-' || c = '*' || c = '/'
    || c = '(' || c = ')'

/-! ## Definitions for the claims on priorities and on rearrangement -/

/-- The binding priority of the specification: `Multiply` and `Division` above `Plus` and
`Minus`; a bracket has none. -/
def priority : Operator → Nat
  | Plus => 1
  | Minus => 1
  | Multiply => 2
  | Division => 2
  | _ => 0

/-- Whether the operator loop for the new operator `o` pops the stack entry `x`: `x` is no
left bracket and `o` does not have strictly greater priority than `x`. -/
def is_popped (o x : Operator) : Bool :=
  decide (x ≠ LeftBracket) && decide (¬ priority x < priority o)

/-- Whether a token is a number. -/
def is_number : Token → Bool
  | num _ => true
  | op _ => false

/-! ## The calculator object and its buffers (lines 47-48)

The functions above take and return the contents of a buffer.  The functions below are
the same code as methods of an object whose two buffers keep whatever the call before
left in them; a call that throws leaves its buffers as they are at the `throw`. -/

/-- The data members of `class Calculator`. -/
structure Buffers where
  reverse_polish : List Token
  normal_rotation : List Token

/-- The call `clear()` on a `std::vector<Token>`: whatever it held, it is empty after. -/
def clear (_buffer : List Token) : List Token := []

/-- The scan loop of lines 121-162 on the member `normal_rotation`; the second component
is the buffer when the loop ends, by exhaustion of the input or by a `throw`. -/
def scan_loop_on : Nat → List Char → List Token → Except Error Unit × List Token
  | _, [], normal_rotation => (.ok (), normal_rotation)
  | 0, _ :: _, normal_rotation => (.error Error.no_fuel, normal_rotation)
  | fuel + 1, c :: cs, normal_rotation =>
    if c = ' ' then scan_loop_on fuel cs normal_rotation
    else if c = '+' then scan_loop_on fuel cs (normal_rotation ++ [op Plus])
    else if c = '-' then scan_loop_on fuel cs (normal_rotation ++ [op Minus])
    else if c = '*' then scan_loop_on fuel cs (normal_rotation ++ [op Multiply])
    else if c = '/' then scan_loop_on fuel cs (normal_rotation ++ [op Division])
    else if c = '(' then scan_loop_on fuel cs (normal_rotation ++ [op LeftBracket])
    else if c = ')' then scan_loop_on fuel cs (normal_rotation ++ [op RightBracket])
    else
      match from_chars (c :: cs) with
      | none => (.error Error.bad_character, normal_rotation)
      | some (value, n) =>
        scan_loop_on fuel ((c :: cs).drop n) (normal_rotation ++ [num value])

/-- Source lines 112-163 as a method: `normal_rotation.clear()` discards what the buffer
held, then the implicit tokens are pushed and the string is scanned. -/
def parse_normal_rotation_on (self : Buffers) (str : List Char) :
    Except Error Unit × Buffers :=
  let cleared : List Token := clear self.normal_rotation
  let started : List Token :=
    if str.head? ≠ some '+' ∧ str.head? ≠ some '-' then cleared ++ [num 0, op Plus]
    else cleared ++ [num 0]
  let result := scan_loop_on str.length str started
  (result.1, { self with normal_rotation := result.2 })

/-- The operator loop of lines 176-186 on the local stack and the member `reverse_polish`;
the second component is the state when the loop ends. -/
def pop_for_operator_on (o : Operator) :
    List Operator → List Token → Except Error Unit × (List Operator × List Token)
  | [], reverse_polish => (.ok (), ([], reverse_polish))
  | op2 :: stack, reverse_polish =>
    if op2 = LeftBracket then (.ok (), (op2 :: stack, reverse_polish))
    else
      match is_first_greater_priority o op2 with
      | .error e => (.error e, (op2 :: stack, reverse_polish))
      | .ok true => (.ok (), (op2 :: stack, reverse_polish))
      | .ok false => pop_for_operator_on o stack (reverse_polish ++ [op op2])

/-- One iteration of the loop of lines 170-208 on the local stack and the member
`reverse_polish`. -/
def convert_token_on (state : List Operator × List Token) :
    Token → Except Error Unit × (List Operator × List Token)
  | num v => (.ok (), (state.1, state.2 ++ [num v]))
  | op o =>
    if is_operator_arithmetic o then
      match pop_for_operator_on o state.1 state.2 with
      | (.error e, state1) => (.error e, state1)
      | (.ok _, (stack, reverse_polish)) => (.ok (), (o :: stack, reverse_polish))
    else if o = LeftBracket then (.ok (), (o :: state.1, state.2))
    else if o = RightBracket then
      match pop_for_bracket state.1 state.2 with
      | (LeftBracket :: stack, reverse_polish) => (.ok (), (stack, reverse_polish))
      | state1 => (.error Error.bad_parentheses, state1)
    else (.ok (), state)

/-- The loop of lines 170-208 on the local stack and the member `reverse_polish`. -/
def convert_loop_on (state : List Operator × List Token) :
    List Token → Except Error Unit × (List Operator × List Token)
  | [] => (.ok (), state)
  | token :: rest =>
    match convert_token_on state token with
    | (.error e, state1) => (.error e, state1)
    | (.ok _, state1) => convert_loop_on state1 rest

/-- The final loop of lines 209-215 on the member `reverse_polish`. -/
def drain_stack_on : List Operator → List Token → Except Error Unit × List Token
  | [], reverse_polish => (.ok (), reverse_polish)
  | top :: stack, reverse_polish =>
    if top = LeftBracket then (.error Error.bad_parentheses, reverse_polish)
    else drain_stack_on stack (reverse_polish ++ [op top])

/-- Source lines 165-216 as a method: `reverse_polish.clear()` discards what the buffer
held, then the member `normal_rotation` is converted into the member `reverse_polish`. -/
def convert_to_reverse_polish_on (self : Buffers) : Except Error Unit × Buffers :=
  let cleared : List Token := clear self.reverse_polish
  match convert_loop_on ([], cleared) self.normal_rotation with
  | (.error e, state) => (.error e, { self with reverse_polish := state.2 })
  | (.ok _, state) =>
    let result := drain_stack_on state.1 state.2
    (result.1, { self with reverse_polish := result.2 })

/-- Source lines 53-71 as a method of an object with buffers `self`: the outcome of the
call and the buffers it leaves.  A `throw` leaves the function at once, so the two
`clear()` calls of lines 67-68 are reached on success only. -/
def Caluclate_on (absf : ℚ → ℚ) (self : Buffers) (str : List Char) :
    Except Error ℚ × Buffers :=
  if str = [] then (.error Error.empty_string, self)
  else
    match check_on_ascii str with
    | .error e => (.error e, self)
    | .ok _ =>
      match parse_normal_rotation_on self (preprocess_str str) with
      | (.error e, self1) => (.error e, self1)
      | (.ok _, self1) =>
        match convert_to_reverse_polish_on self1 with
        | (.error e, self2) => (.error e, self2)
        | (.ok _, self2) =>
          match calc_result_from_polish absf self2.reverse_polish with
          | .error e => (.error e, self2)
          | .ok res =>
            (.ok res, { reverse_polish := clear self2.reverse_polish,
                        normal_rotation := clear self2.normal_rotation })

/-- The tree of "1/0.5" behind the implicit `0 +` of the tokenizer. -/
def tree_of_half_divisor : Expr :=
  .bin Plus (.num 0) (.bin Division (.num 1) (.num (1 / 2)))

/-! # Theorems -/

/-! ## Facts about the converter -/

theorem arith_ne_brackets (o : Operator) (h : is_operator_arithmetic o = true) :
    o ≠ LeftBracket ∧ o ≠ RightBracket := by
  cases o <;> simp [is_operator_arithmetic] at h ⊢

theorem not_arith_cases (o : Operator) (h : is_operator_arithmetic o = false) :
    o = LeftBracket ∨ o = RightBracket := by
  cases o <;> simp [is_operator_arithmetic] at h ⊢

/-- The operator loop pops a prefix of arithmetic operators and never asserts, when the
new operator is arithmetic and the stack holds no right bracket. -/
theorem pop_for_operator_spec (o : Operator) (ho : is_operator_arithmetic o = true)
    (stack : List Operator) (out : List Token) (hst : RightBracket ∉ stack) :
    ∃ popped rest, stack = popped ++ rest ∧ (∀ x ∈ popped, is_operator_arithmetic x = true) ∧
      pop_for_operator o stack out = .ok (rest, out ++ popped.map op) := by
  induction stack generalizing out with
  | nil => exact ⟨[], [], rfl, by simp, by simp [pop_for_operator]⟩
  | cons op2 st ih =>
    have hst' : RightBracket ∉ st := fun h => hst (List.mem_cons_of_mem _ h)
    have h2 : op2 ≠ RightBracket := fun h => hst (h ▸ List.mem_cons_self _ _)
    by_cases hlb : op2 = LeftBracket
    · exact ⟨[], op2 :: st, rfl, by simp, by simp [pop_for_operator, hlb]⟩
    · have ha2 : is_operator_arithmetic op2 = true := by
        cases op2 <;> simp_all [is_operator_arithmetic]
      by_cases hg : (o = Multiply ∨ o = Division) ∧ (op2 = Plus ∨ op2 = Minus)
      · refine ⟨[], op2 :: st, rfl, by simp, ?_⟩
        simp [pop_for_operator, hlb, is_first_greater_priority, ho, ha2, hg]
      · obtain ⟨popped, rest, h1, h2', h3⟩ := ih (out ++ [op op2]) hst'
        refine ⟨op2 :: popped, rest, by simp [h1], ?_, ?_⟩
        · intro x hx
          rcases List.mem_cons.1 hx with rfl | hx
          · exact ha2
          · exact h2' x hx
        · simp [pop_for_operator, hlb, is_first_greater_priority, ho, ha2, hg, h3]

/-- The bracket loop moves the longest prefix of arithmetic operators to the output. -/
theorem pop_for_bracket_eq (stack : List Operator) (out : List Token) :
    pop_for_bracket stack out =
      (stack.dropWhile is_operator_arithmetic,
        out ++ (stack.takeWhile is_operator_arithmetic).map op) := by
  induction stack generalizing out with
  | nil => simp [pop_for_bracket]
  | cons op2 st ih =>
    by_cases h : is_operator_arithmetic op2 = true
    · simp [pop_for_bracket, h, ih, List.takeWhile_cons, List.dropWhile_cons]
    · simp [pop_for_bracket, h, List.takeWhile_cons, List.dropWhile_cons]

/-- The final loop succeeds exactly when no left bracket is left, and then appends the
whole stack. -/
theorem drain_stack_ok (stack : List Operator) (out : List Token) (h : LeftBracket ∉ stack) :
    drain_stack stack out = .ok (out ++ stack.map op) := by
  induction stack generalizing out with
  | nil => simp [drain_stack]
  | cons t st ih =>
    have ht : t ≠ LeftBracket := fun e => h (e ▸ List.mem_cons_self _ _)
    have hst : LeftBracket ∉ st := fun e => h (List.mem_cons_of_mem _ e)
    simp [drain_stack, ht, ih _ hst]

theorem drain_stack_error (stack : List Operator) (out : List Token) (h : LeftBracket ∈ stack) :
    drain_stack stack out = .error Error.bad_parentheses := by
  induction stack generalizing out with
  | nil => simp at h
  | cons t st ih =>
    by_cases ht : t = LeftBracket
    · simp [drain_stack, ht]
    · have : LeftBracket ∈ st := by
        rcases List.mem_cons.1 h with e | e
        · exact absurd e.symm ht
        · exact e
      simp [drain_stack, ht, ih _ this]

/-- What one iteration of the conversion loop does, by kind of token, on a stack without
right bracket. -/
theorem convert_token_cases (st : List Operator) (out : List Token) (t : Token)
    (hst : RightBracket ∉ st) :
    (∃ v, t = num v ∧ convert_token (st, out) t = .ok (st, out ++ [num v])) ∨
    (∃ o popped rest, t = op o ∧ is_operator_arithmetic o = true ∧ st = popped ++ rest ∧
        (∀ x ∈ popped, is_operator_arithmetic x = true) ∧
        convert_token (st, out) t = .ok (o :: rest, out ++ popped.map op)) ∨
    (t = op LeftBracket ∧ convert_token (st, out) t = .ok (LeftBracket :: st, out)) ∨
    (∃ popped rest, t = op RightBracket ∧ st = popped ++ LeftBracket :: rest ∧
        (∀ x ∈ popped, is_operator_arithmetic x = true) ∧
        convert_token (st, out) t = .ok (rest, out ++ popped.map op)) ∨
    (t = op RightBracket ∧ (∀ x ∈ st, is_operator_arithmetic x = true) ∧
        convert_token (st, out) t = .error Error.bad_parentheses) := by
  cases t with
  | num v => exact Or.inl ⟨v, rfl, rfl⟩
  | op o =>
    by_cases ho : is_operator_arithmetic o = true
    · obtain ⟨popped, rest, h1, h2, h3⟩ := pop_for_operator_spec o ho st out hst
      refine Or.inr (Or.inl ⟨o, popped, rest, rfl, ho, h1, h2, ?_⟩)
      simp [convert_token, ho, h3]
    · have ho' : is_operator_arithmetic o = false := by simpa using ho
      rcases not_arith_cases o ho' with rfl | rfl
      · exact Or.inr (Or.inr (Or.inl ⟨rfl, by simp [convert_token, is_operator_arithmetic]⟩))
      · refine Or.inr (Or.inr (Or.inr ?_))
        have hsplit := List.takeWhile_append_dropWhile is_operator_arithmetic st
        have htw : ∀ x ∈ st.takeWhile is_operator_arithmetic, is_operator_arithmetic x = true :=
          fun x hx => List.mem_takeWhile_imp hx
        cases hd : st.dropWhile is_operator_arithmetic with
        | nil =>
          refine Or.inr ⟨rfl, ?_, ?_⟩
          · intro x hx
            rw [← hsplit, hd, List.append_nil] at hx
            exact htw x hx
          · simp [convert_token, is_operator_arithmetic, pop_for_bracket_eq, hd]
        | cons y ys =>
          have hy : is_operator_arithmetic y = false := by
            have := List.head_dropWhile_not is_operator_arithmetic st (by simp [hd])
            simpa [hd] using this
          have hyst : y ∈ st := by
            rw [← hsplit, hd]; simp
          have hyl : y = LeftBracket := by
            rcases not_arith_cases y hy with h | h
            · exact h
            · exact absurd (h ▸ hyst) hst
          subst hyl
          refine Or.inl ⟨st.takeWhile is_operator_arithmetic, ys, rfl, ?_, htw, ?_⟩
          · rw [← hd, hsplit]
          · simp [convert_token, is_operator_arithmetic, pop_for_bracket_eq, hd]

/-- The stack never holds a right bracket: one iteration keeps this. -/
theorem convert_token_no_rb (st : List Operator) (out : List Token) (t : Token)
    (hst : RightBracket ∉ st) (st1 : List Operator) (out1 : List Token)
    (h : convert_token (st, out) t = .ok (st1, out1)) : RightBracket ∉ st1 := by
  rcases convert_token_cases st out t hst with
    ⟨v, _, e⟩ | ⟨o, popped, rest, _, ho, hs, _, e⟩ | ⟨_, e⟩ | ⟨popped, rest, _, hs, _, e⟩ | ⟨_, _, e⟩
  · rw [e] at h; cases h; exact hst
  · rw [e] at h; cases h
    intro hm
    rcases List.mem_cons.1 hm with h1 | h1
    · exact (arith_ne_brackets o ho).2 h1.symm
    · exact hst (hs ▸ List.mem_append_right _ h1)
  · rw [e] at h; cases h
    intro hm
    rcases List.mem_cons.1 hm with h1 | h1
    · cases h1
    · exact hst h1
  · rw [e] at h; cases h
    intro hm
    exact hst (hs ▸ List.mem_append_right _ (List.mem_cons_of_mem _ hm))
  · rw [e] at h; cases h

theorem count_lb_of_arith (popped : List Operator)
    (h : ∀ x ∈ popped, is_operator_arithmetic x = true) : popped.count LeftBracket = 0 := by
  rw [List.count_eq_zero]
  intro hm
  have := h _ hm
  simp [is_operator_arithmetic] at this

theorem paren_depth_nil (d : Nat) : paren_depth d [] = some d := by
  cases d <;> rfl

/-- The conversion loop tracks the nesting depth in the number of left brackets on its
stack, and fails exactly when the depth would become negative. -/
theorem convert_loop_depth (toks : List Token) (st : List Operator) (out : List Token)
    (hst : RightBracket ∉ st) :
    (paren_depth (st.count LeftBracket) toks = none ∧
      convert_loop (st, out) toks = .error Error.bad_parentheses) ∨
    (∃ st1 out1, convert_loop (st, out) toks = .ok (st1, out1) ∧ RightBracket ∉ st1 ∧
      paren_depth (st.count LeftBracket) toks = some (st1.count LeftBracket)) := by
  induction toks generalizing st out with
  | nil => exact Or.inr ⟨st, out, rfl, hst, paren_depth_nil _⟩
  | cons t ts ih =>
    rcases convert_token_cases st out t hst with
      ⟨v, ht, e⟩ | ⟨o, popped, rest, ht, ho, hs, hp, e⟩ | ⟨ht, e⟩ | ⟨popped, rest, ht, hs, hp, e⟩ |
      ⟨ht, ha, e⟩
    · subst ht
      have hpd : ∀ d, paren_depth d (num v :: ts) = paren_depth d ts := by
        intro d; cases d <;> simp [paren_depth]
      simp only [convert_loop, e, hpd]
      exact ih st _ hst
    · subst ht
      have hst1 := convert_token_no_rb st out (op o) hst _ _ e
      have hpd : ∀ d, paren_depth d (op o :: ts) = paren_depth d ts := by
        intro d; cases o <;> cases d <;> simp [paren_depth, is_operator_arithmetic] at ho ⊢
      have hc : (o :: rest).count LeftBracket = st.count LeftBracket := by
        have hne : o ≠ LeftBracket := (arith_ne_brackets o ho).1
        rw [hs, List.count_append, count_lb_of_arith popped hp, List.count_cons_of_ne hne.symm]
        simp
      simp only [convert_loop, e, hpd]
      rw [← hc]
      exact ih _ _ hst1
    · subst ht
      have hst1 := convert_token_no_rb st out (op LeftBracket) hst _ _ e
      have hpd : ∀ d, paren_depth d (op LeftBracket :: ts) = paren_depth (d + 1) ts := by
        intro d; cases d <;> simp [paren_depth]
      have hc : (LeftBracket :: st).count LeftBracket = st.count LeftBracket + 1 := by simp
      simp only [convert_loop, e, hpd]
      rw [← hc]
      exact ih _ _ hst1
    · subst ht
      have hst1 := convert_token_no_rb st out (op RightBracket) hst _ _ e
      have hc : st.count LeftBracket = rest.count LeftBracket + 1 := by
        rw [hs, List.count_append, count_lb_of_arith popped hp]; simp
      simp only [convert_loop, e, hc, paren_depth]
      exact ih _ _ hst1
    · subst ht
      have hc : st.count LeftBracket = 0 := count_lb_of_arith st ha
      left
      simp [convert_loop, e, hc, paren_depth]

/-- Conversion fails with "Bad parentheses" when the depth check fails, and succeeds
otherwise. -/
theorem convert_to_reverse_polish_depth (toks : List Token) :
    (paren_depth 0 toks ≠ some 0 ∧
      convert_to_reverse_polish toks = .error Error.bad_parentheses) ∨
    (paren_depth 0 toks = some 0 ∧ ∃ rp, convert_to_reverse_polish toks = .ok rp) := by
  rcases convert_loop_depth toks [] [] (by simp) with ⟨h1, h2⟩ | ⟨st1, out1, h1, h2, h3⟩
  · left
    simp only [List.count_nil] at h1
    exact ⟨by simp [h1], by simp [convert_to_reverse_polish, h2]⟩
  · simp only [List.count_nil] at h3
    by_cases hz : st1.count LeftBracket = 0
    · right
      refine ⟨by rw [h3, hz], out1 ++ st1.map op, ?_⟩
      simp only [convert_to_reverse_polish, h1]
      exact drain_stack_ok _ _ (List.count_eq_zero.1 hz)
    · left
      refine ⟨by rw [h3]; simpa using hz, ?_⟩
      simp only [convert_to_reverse_polish, h1]
      exact drain_stack_error _ _ (by
        by_contra hn; exact hz (List.count_eq_zero.2 hn))

/-- A depth that stays defined bounds every prefix and accounts for all brackets. -/
theorem paren_depth_counts (toks : List Token) (d d1 : Nat)
    (h : paren_depth d toks = some d1) :
    (∀ n, (toks.take n).count (op RightBracket) ≤ d + (toks.take n).count (op LeftBracket)) ∧
      d1 + toks.count (op RightBracket) = d + toks.count (op LeftBracket) := by
  induction toks generalizing d with
  | nil => rw [paren_depth_nil] at h; cases h; simp
  | cons t ts ih =>
    cases t with
    | num v =>
      have hpd : paren_depth d (num v :: ts) = paren_depth d ts := by
        cases d <;> simp [paren_depth]
      rw [hpd] at h
      obtain ⟨h1, h2⟩ := ih d h
      refine ⟨fun n => ?_, by simpa using h2⟩
      cases n with
      | zero => simp
      | succ n => simpa using h1 n
    | op o =>
      by_cases ho : is_operator_arithmetic o = true
      · have hpd : paren_depth d (op o :: ts) = paren_depth d ts := by
          cases o <;> cases d <;> simp [paren_depth, is_operator_arithmetic] at ho ⊢
        rw [hpd] at h
        obtain ⟨h1, h2⟩ := ih d h
        have hl : (op LeftBracket : Token) ≠ op o := by
          intro e; cases e; simp [is_operator_arithmetic] at ho
        have hr : (op RightBracket : Token) ≠ op o := by
          intro e; cases e; simp [is_operator_arithmetic] at ho
        refine ⟨fun n => ?_, by
          rw [List.count_cons_of_ne hl, List.count_cons_of_ne hr]; exact h2⟩
        cases n with
        | zero => simp
        | succ n =>
          rw [List.take_succ_cons, List.count_cons_of_ne hl, List.count_cons_of_ne hr]
          exact h1 n
      · have ho' : is_operator_arithmetic o = false := by simpa using ho
        rcases not_arith_cases o ho' with rfl | rfl
        · have hpd : paren_depth d (op LeftBracket :: ts) = paren_depth (d + 1) ts := by
            cases d <;> simp [paren_depth]
          rw [hpd] at h
          obtain ⟨h1, h2⟩ := ih (d + 1) h
          refine ⟨fun n => ?_, by simp; omega⟩
          cases n with
          | zero => simp
          | succ n => have := h1 n; simp; omega
        · cases d with
          | zero => simp [paren_depth] at h
          | succ d =>
            simp only [paren_depth] at h
            obtain ⟨h1, h2⟩ := ih d h
            refine ⟨fun n => ?_, by simp; omega⟩
            cases n with
            | zero => simp
            | succ n => have := h1 n; simp; omega

/-! ## Facts about the evaluator -/

theorem calc_loop_append (absf : ℚ → ℚ) (xs ys : List Token) (st : List ℚ) :
    calc_loop absf st (xs ++ ys) =
      match calc_loop absf st xs with
      | .error e => .error e
      | .ok st1 => calc_loop absf st1 ys := by
  induction xs generalizing st with
  | nil => simp [calc_loop]
  | cons t ts ih =>
    simp only [List.cons_append, calc_loop]
    cases calc_step absf st t with
    | error e => rfl
    | ok st1 => exact ih st1

theorem abs_double_small (x : ℚ) (h : |x| < eps) : abs_double x < eps := h

theorem abs_int_small (x : ℚ) (h : |x| < eps) : abs_int x < eps := by
  have h1 : |x| < 1 := lt_trans h (by norm_num [eps])
  have hden : (0 : ℚ) < x.den := by exact_mod_cast x.den_pos
  have h2 : |(x.num : ℚ)| < x.den := by
    have hx : x = (x.num : ℚ) / x.den := (Rat.num_div_den x).symm
    rw [hx, abs_div, abs_of_pos hden, div_lt_one hden] at h1
    exact h1
  have h3 : |x.num| < (x.den : ℤ) := by exact_mod_cast h2
  have h4 : Int.tdiv x.num (x.den : ℤ) = 0 := by
    rcases abs_lt.1 h3 with ⟨hl, hr⟩
    by_cases hn : 0 ≤ x.num
    · exact Int.tdiv_eq_zero_of_lt hn hr
    · have hn' : 0 ≤ -x.num := by omega
      have := Int.tdiv_eq_zero_of_lt hn' (by omega : -x.num < (x.den : ℤ))
      rw [Int.neg_tdiv] at this
      omega
  simp [abs_int, h4, eps]

/-! ## Facts about the tokenizer -/

theorem sign_split (s : List Char) : s = sign_text s ++ after_sign s := by
  cases s with
  | nil => simp [sign_text, after_sign]
  | cons c cs =>
    by_cases h : c = '-'
    · simp [sign_text, after_sign, h]
    · simp [sign_text, after_sign, h]

theorem int_split (s : List Char) : after_sign s = int_part s ++ after_int s :=
  (List.takeWhile_append_dropWhile _ _).symm

theorem point_split (s : List Char) : after_int s = point_text s ++ after_frac s := by
  by_cases h : has_point s = true
  · have h1 : (after_int s).head? = some '.' := by simpa [has_point] using h
    have h2 : after_int s = '.' :: (after_int s).tail := by
      cases hs : after_int s with
      | nil => simp [hs] at h1
      | cons c cs => simp [hs] at h1; simp [h1]
    simp only [point_text, frac_part, after_frac, h, if_true, List.cons_append,
      List.takeWhile_append_dropWhile]
    exact h2
  · simp [point_text, after_frac, h]

theorem exp_split (s : List Char) : ∃ R, after_frac s = exp_text s ++ R := by
  by_cases h : has_exponent s = true
  · have h1 : after_frac s ≠ [] := by
      intro hn
      simp [has_exponent, hn] at h
    have h2 : after_frac s = (after_frac s).take 1 ++ (after_frac s).tail := by
      cases hs : after_frac s with
      | nil => exact absurd hs h1
      | cons c cs => simp
    have h3 : (after_frac s).tail
        = exp_sign_text s ++ (after_frac s).tail.drop (exp_sign_text s).length := by
      cases ht : (after_frac s).tail with
      | nil => simp [exp_sign_text, ht]
      | cons c cs =>
        by_cases hp : c = '+'
        · simp [exp_sign_text, ht, hp]
        · by_cases hm : c = '-'
          · simp [exp_sign_text, ht, hm]
          · simp [exp_sign_text, ht, hp, hm]
    refine ⟨((after_frac s).tail.drop (exp_sign_text s).length).dropWhile Char.isDigit, ?_⟩
    simp only [exp_text, h, if_true, exp_digits, List.append_assoc,
      List.takeWhile_append_dropWhile]
    rw [← h3]
    exact h2
  · exact ⟨after_frac s, by simp [exp_text, h]⟩

/-- The matched characters are the beginning of the input. -/
theorem literal_split (s : List Char) : ∃ R, s = literal_text s ++ R := by
  obtain ⟨R, hR⟩ := exp_split s
  refine ⟨R, ?_⟩
  have h := sign_split s
  rw [int_split, point_split, hR] at h
  simpa [literal_text, List.append_assoc] using h

/-- The matched characters are digits, points, exponent letters and signs. -/
theorem literal_text_chars (s : List Char) (c : Char) (hc : c ∈ literal_text s) :
    literal_char c = true := by
  simp only [literal_text, List.mem_append] at hc
  rcases hc with ((h | h) | h) | h
  · have : c = '-' := by
      by_cases hs : s.head? = some '-'
      · simpa [sign_text, hs] using h
      · simp [sign_text, hs] at h
    simp [literal_char, this]
  · have := List.mem_takeWhile_imp h
    simp [literal_char, this]
  · by_cases hp : has_point s = true
    · simp only [point_text, hp, if_true, List.mem_cons, frac_part] at h
      rcases h with h | h
      · simp [literal_char, h]
      · have := List.mem_takeWhile_imp h
        simp [literal_char, this]
    · simp [point_text, hp] at h
  · by_cases he : has_exponent s = true
    · simp only [exp_text, he, if_true, List.mem_append] at h
      rcases h with (h | h) | h
      · have he' := he
        simp only [has_exponent, decide_eq_true_eq] at he'
        cases hs : after_frac s with
        | nil => simp [hs] at h
        | cons d ds =>
          rw [hs] at h
          simp at h
          subst h
          have := he'.1
          rw [hs] at this
          simp at this
          rcases this with rfl | rfl <;> simp [literal_char]
      · have : c = '+' ∨ c = '-' := by
          unfold exp_sign_text at h
          split at h
          · left; simpa using h
          · split at h
            · right; simpa using h
            · simp at h
        rcases this with rfl | rfl <;> simp [literal_char]
      · have := List.mem_takeWhile_imp h
        simp [literal_char, this]
    · simp [exp_text, he] at h

/-- A successful `from_chars` consumes at least one character, all of them at the
beginning of the input and all of them characters of a literal. -/
theorem from_chars_consumed (s : List Char) (v : ℚ) (n : Nat)
    (h : from_chars s = some (v, n)) :
    1 ≤ n ∧ ∃ L R, s = L ++ R ∧ L.length = n ∧ ∀ c ∈ L, literal_char c = true := by
  unfold from_chars at h
  split at h
  · cases h
  · rename_i hne
    simp only [Option.some.injEq, Prod.mk.injEq] at h
    obtain ⟨R, hR⟩ := literal_split s
    refine ⟨?_, literal_text s, R, hR, h.2, literal_text_chars s⟩
    rw [← h.2]
    have hpos : int_part s ≠ [] ∨ frac_part s ≠ [] := by
      by_contra hcon
      push_neg at hcon
      exact hne hcon
    rcases hpos with hp | hp
    · have := List.length_pos.2 hp
      simp [literal_text]
      omega
    · have hpt : has_point s = true := by
        by_contra hcon
        simp [frac_part, hcon] at hp
      have := List.length_pos.2 hp
      simp [literal_text, point_text, hpt]
      omega

/-- A character that is neither part of a literal, nor a space, nor an operator character
stops the scan with "Couldnt parse, bad character", wherever it stands. -/
theorem scan_loop_bad_character (fuel : Nat) (s : List Char) (acc : List Token)
    (hfuel : s.length ≤ fuel) (c0 : Char) (hc0 : c0 ∈ s)
    (hlit : literal_char c0 = false)
    (hop : c0 ≠ ' ' ∧ c0 ≠ '*' ∧ c0 ≠ '/' ∧ c0 ≠ '(' ∧ c0 ≠ ')') :
    scan_loop fuel s acc = .error Error.bad_character := by
  have hpm : c0 ≠ '+' ∧ c0 ≠ '-' := by
    constructor <;> (intro e; subst e; simp [literal_char] at hlit)
  induction fuel generalizing s acc with
  | zero =>
    cases s with
    | nil => simp at hc0
    | cons c cs => simp at hfuel
  | succ fuel ih =>
    cases s with
    | nil => simp at hc0
    | cons c cs =>
      have hlen : cs.length ≤ fuel := by simpa using hfuel
      have hmem : c ≠ c0 → c0 ∈ cs := by
        intro hne
        rcases List.mem_cons.1 hc0 with e | e
        · exact absurd e.symm hne
        · exact e
      unfold scan_loop
      split
      · rename_i h; exact ih cs _ hlen (hmem (by rw [h]; exact hop.1.symm))
      split
      · rename_i h; exact ih cs _ hlen (hmem (by rw [h]; exact hpm.1.symm))
      split
      · rename_i h; exact ih cs _ hlen (hmem (by rw [h]; exact hpm.2.symm))
      split
      · rename_i h; exact ih cs _ hlen (hmem (by rw [h]; exact hop.2.1.symm))
      split
      · rename_i h; exact ih cs _ hlen (hmem (by rw [h]; exact hop.2.2.1.symm))
      split
      · rename_i h; exact ih cs _ hlen (hmem (by rw [h]; exact hop.2.2.2.1.symm))
      split
      · rename_i h; exact ih cs _ hlen (hmem (by rw [h]; exact hop.2.2.2.2.symm))
      split
      · rfl
      · rename_i value n hfc
        obtain ⟨hn, L, R, hLR, hLn, hL⟩ := from_chars_consumed _ _ _ hfc
        have hdrop : (c :: cs).drop n = R := by
          rw [hLR, ← hLn]; simp
        rw [hdrop]
        have hR : c0 ∈ R := by
          rw [hLR] at hc0
          rcases List.mem_append.1 hc0 with e | e
          · have := hL c0 e
            rw [hlit] at this
            cases this
          · exact e
        have hRlen : R.length ≤ fuel := by
          have : (c :: cs).length = L.length + R.length := by rw [hLR]; simp
          simp at this hfuel
          omega
        exact ih R _ hRlen hR

/-- The iteration bound `str.length` is never used up: every iteration of the scan loop
consumes at least one character. -/
theorem scan_loop_fuel (fuel : Nat) (s : List Char) (acc : List Token)
    (hfuel : s.length ≤ fuel) : scan_loop fuel s acc ≠ .error Error.no_fuel := by
  induction fuel generalizing s acc with
  | zero =>
    cases s with
    | nil => simp [scan_loop]
    | cons c cs => simp at hfuel
  | succ fuel ih =>
    cases s with
    | nil => simp [scan_loop]
    | cons c cs =>
      have hlen : cs.length ≤ fuel := by simpa using hfuel
      unfold scan_loop
      split
      · exact ih cs _ hlen
      split
      · exact ih cs _ hlen
      split
      · exact ih cs _ hlen
      split
      · exact ih cs _ hlen
      split
      · exact ih cs _ hlen
      split
      · exact ih cs _ hlen
      split
      · exact ih cs _ hlen
      split
      · simp
      · rename_i value n hfc
        obtain ⟨hn, L, R, hLR, hLn, _⟩ := from_chars_consumed _ _ _ hfc
        have hdrop : (c :: cs).drop n = R := by
          rw [hLR, ← hLn]; simp
        rw [hdrop]
        have hRlen : R.length ≤ fuel := by
          have : (c :: cs).length = L.length + R.length := by rw [hLR]; simp
          simp at this hfuel
          omega
        exact ih R _ hRlen

theorem parse_normal_rotation_fuel (str : List Char) :
    parse_normal_rotation str ≠ .error Error.no_fuel :=
  scan_loop_fuel _ _ _ (le_refl _)

/-! ## Correctness of the conversion on grammatical input -/

theorem barrier_top_low (st : List Operator) (h : barrier_top st = true) : low_top st = true := by
  cases st with
  | nil => rfl
  | cons x xs => cases x <;> simp_all [barrier_top, low_top]

/-- An additive operator pops every pending arithmetic operator down to the barrier. -/
theorem pop_for_operator_additive (o : Operator) (ho : o = Plus ∨ o = Minus)
    (pend st : List Operator) (out : List Token)
    (hp : ∀ x ∈ pend, is_operator_arithmetic x = true) (hb : barrier_top st = true) :
    pop_for_operator o (pend ++ st) out = .ok (st, out ++ pend.map op) := by
  induction pend generalizing out with
  | nil =>
    cases st with
    | nil => simp [pop_for_operator]
    | cons x xs =>
      cases x <;> simp_all [barrier_top, pop_for_operator]
  | cons x xs ih =>
    have hx := hp x (List.mem_cons_self _ _)
    have hxs : ∀ y ∈ xs, is_operator_arithmetic y = true :=
      fun y hy => hp y (List.mem_cons_of_mem _ hy)
    have hne := (arith_ne_brackets x hx).1
    have hg : is_first_greater_priority o x = .ok false := by
      rcases ho with rfl | rfl <;>
        cases x <;> simp_all [is_first_greater_priority, is_operator_arithmetic]
    simp [pop_for_operator, hne, hg, ih _ hxs]

/-- A multiplicative operator pops the pending multiplicative operators and stops at a
bracket, at an additive operator or at the bottom. -/
theorem pop_for_operator_multiplicative (o : Operator) (ho : o = Multiply ∨ o = Division)
    (m st : List Operator) (out : List Token)
    (hm : ∀ x ∈ m, x = Multiply ∨ x = Division) (hb : low_top st = true) :
    pop_for_operator o (m ++ st) out = .ok (st, out ++ m.map op) := by
  induction m generalizing out with
  | nil =>
    cases st with
    | nil => simp [pop_for_operator]
    | cons x xs =>
      rcases ho with rfl | rfl <;>
        cases x <;>
          simp_all [low_top, pop_for_operator, is_first_greater_priority, is_operator_arithmetic]
  | cons x xs ih =>
    have hx := hm x (List.mem_cons_self _ _)
    have hxs : ∀ y ∈ xs, y = Multiply ∨ y = Division :=
      fun y hy => hm y (List.mem_cons_of_mem _ hy)
    have hne : x ≠ LeftBracket := by rcases hx with rfl | rfl <;> decide
    have hg : is_first_greater_priority o x = .ok false := by
      rcases ho with rfl | rfl <;> rcases hx with rfl | rfl <;>
        simp [is_first_greater_priority, is_operator_arithmetic]
    simp [pop_for_operator, hne, hg, ih _ hxs]

/-- A right bracket pops the pending arithmetic operators down to its left bracket. -/
theorem pop_for_bracket_pending (pend st : List Operator) (out : List Token)
    (hp : ∀ x ∈ pend, is_operator_arithmetic x = true) :
    pop_for_bracket (pend ++ LeftBracket :: st) out = (LeftBracket :: st, out ++ pend.map op) := by
  induction pend generalizing out with
  | nil => simp [pop_for_bracket, is_operator_arithmetic]
  | cons x xs ih =>
    have hx := hp x (List.mem_cons_self _ _)
    have hxs : ∀ y ∈ xs, is_operator_arithmetic y = true :=
      fun y hy => hp y (List.mem_cons_of_mem _ hy)
    simp [pop_for_bracket, hx, ih _ hxs]

theorem convert_loop_cons (state : List Operator × List Token) (t : Token) (ts : List Token) :
    convert_loop state (t :: ts) =
      match convert_token state t with
      | .error e => .error e
      | .ok state1 => convert_loop state1 ts := rfl

/-- The three statements of the correctness proof, one per level of the grammar. -/
theorem convert_loop_expr (e : Expr) :
    (in_grammar 0 e = true → ∀ st out rest,
      convert_loop (st, out) (expr_tokens e ++ rest)
        = convert_loop (st, out ++ polish_tokens e) rest) ∧
    (in_grammar 1 e = true → ∀ st out rest, low_top st = true →
      ∃ m X, (∀ x ∈ m, x = Multiply ∨ x = Division) ∧ X ++ m.map op = polish_tokens e ∧
        convert_loop (st, out) (expr_tokens e ++ rest) = convert_loop (m ++ st, out ++ X) rest) ∧
    (in_grammar 2 e = true → ∀ st out rest, barrier_top st = true →
      ∃ pend X, (∀ x ∈ pend, is_operator_arithmetic x = true) ∧
        X ++ pend.map op = polish_tokens e ∧
        convert_loop (st, out) (expr_tokens e ++ rest)
          = convert_loop (pend ++ st, out ++ X) rest) := by
  have mul_arith : ∀ m : List Operator, (∀ x ∈ m, x = Multiply ∨ x = Division) →
      ∀ x ∈ m, is_operator_arithmetic x = true := by
    intro m hm x hx
    rcases hm x hx with rfl | rfl <;> rfl
  induction e with
  | num v =>
    have hF : ∀ st out rest, convert_loop (st, out) (expr_tokens (Expr.num v) ++ rest)
        = convert_loop (st, out ++ polish_tokens (Expr.num v)) rest := by
      intro st out rest
      simp [expr_tokens, polish_tokens, convert_loop_cons, convert_token]
    exact ⟨fun _ => hF,
      fun _ st out rest _ => ⟨[], polish_tokens (Expr.num v), by simp, by simp, by simpa using hF st out rest⟩,
      fun _ st out rest _ => ⟨[], polish_tokens (Expr.num v), by simp, by simp, by simpa using hF st out rest⟩⟩
  | paren e ih =>
    have hF : in_grammar 2 e = true → ∀ st out rest,
        convert_loop (st, out) (expr_tokens (Expr.paren e) ++ rest)
          = convert_loop (st, out ++ polish_tokens (Expr.paren e)) rest := by
      intro hg st out rest
      obtain ⟨pend, X, hp, hX, hc⟩ := ih.2.2 hg (LeftBracket :: st) out (op RightBracket :: rest) rfl
      have h1 : expr_tokens (Expr.paren e) ++ rest
          = op LeftBracket :: (expr_tokens e ++ op RightBracket :: rest) := by
        simp [expr_tokens]
      rw [h1, convert_loop_cons]
      have h2 : convert_token (st, out) (op LeftBracket) = .ok (LeftBracket :: st, out) := by
        simp [convert_token, is_operator_arithmetic]
      rw [h2]
      simp only
      rw [hc, convert_loop_cons]
      have h3 : convert_token (pend ++ LeftBracket :: st, out ++ X) (op RightBracket)
          = .ok (st, out ++ X ++ pend.map op) := by
        simp [convert_token, is_operator_arithmetic, pop_for_bracket_pending _ _ _ hp]
      rw [h3]
      simp only [polish_tokens, ← hX, List.append_assoc]
    refine ⟨fun hg => hF (by simpa [in_grammar] using hg), ?_, ?_⟩
    · intro hg st out rest _
      exact ⟨[], polish_tokens (Expr.paren e), by simp, by simp,
        by simpa using hF (by simpa [in_grammar] using hg) st out rest⟩
    · intro hg st out rest _
      exact ⟨[], polish_tokens (Expr.paren e), by simp, by simp,
        by simpa using hF (by simpa [in_grammar] using hg) st out rest⟩
  | bin o l r ihl ihr =>
    by_cases hadd : o = Plus ∨ o = Minus
    · -- additive node: only level 2
      have hoa : is_operator_arithmetic o = true := by rcases hadd with rfl | rfl <;> rfl
      refine ⟨by simp [in_grammar, hadd], by simp [in_grammar, hadd], ?_⟩
      intro hg st out rest hb
      have hgl : in_grammar 2 l = true := by simp [in_grammar, hadd] at hg; exact hg.1
      have hgr : in_grammar 1 r = true := by simp [in_grammar, hadd] at hg; exact hg.2
      obtain ⟨pend, X, hp, hX, hc⟩ := ihl.2.2 hgl st out (op o :: (expr_tokens r ++ rest)) hb
      have hlow : low_top (o :: st) = true := by rcases hadd with rfl | rfl <;> rfl
      obtain ⟨m, Y, hm, hY, hc2⟩ := ihr.2.1 hgr (o :: st) (out ++ X ++ pend.map op) rest hlow
      refine ⟨m ++ [o], polish_tokens l ++ Y, ?_, ?_, ?_⟩
      · intro x hx
        rcases List.mem_append.1 hx with h | h
        · exact mul_arith m hm x h
        · simp at h; subst h; exact hoa
      · simp [polish_tokens, ← hY]
      · have h1 : expr_tokens (Expr.bin o l r) ++ rest
            = expr_tokens l ++ op o :: (expr_tokens r ++ rest) := by
          simp [expr_tokens]
        rw [h1, hc, convert_loop_cons]
        have h2 : convert_token (pend ++ st, out ++ X) (op o)
            = .ok (o :: st, out ++ X ++ pend.map op) := by
          simp [convert_token, hoa, pop_for_operator_additive o hadd pend st _ hp hb]
        rw [h2]
        simp only
        rw [hc2]
        simp [← hX, List.append_assoc]
    · by_cases hmul : o = Multiply ∨ o = Division
      · have hoa : is_operator_arithmetic o = true := by rcases hmul with rfl | rfl <;> rfl
        have hT : in_grammar 1 l = true → in_grammar 0 r = true →
            ∀ st out rest, low_top st = true →
            ∃ m X, (∀ x ∈ m, x = Multiply ∨ x = Division) ∧
              X ++ m.map op = polish_tokens (Expr.bin o l r) ∧
              convert_loop (st, out) (expr_tokens (Expr.bin o l r) ++ rest)
                = convert_loop (m ++ st, out ++ X) rest := by
          intro hgl hgr st out rest hb
          obtain ⟨m, X, hm, hX, hc⟩ := ihl.2.1 hgl st out (op o :: (expr_tokens r ++ rest)) hb
          have hc2 := ihr.1 hgr (o :: st) (out ++ X ++ m.map op) rest
          refine ⟨[o], polish_tokens l ++ polish_tokens r, ?_, ?_, ?_⟩
          · intro x hx; simp at hx; subst hx; exact hmul
          · simp [polish_tokens]
          · have h1 : expr_tokens (Expr.bin o l r) ++ rest
                = expr_tokens l ++ op o :: (expr_tokens r ++ rest) := by
              simp [expr_tokens]
            rw [h1, hc, convert_loop_cons]
            have h2 : convert_token (m ++ st, out ++ X) (op o)
                = .ok (o :: st, out ++ X ++ m.map op) := by
              simp [convert_token, hoa, pop_for_operator_multiplicative o hmul m st _ hm hb]
            rw [h2]
            simp only
            rw [hc2]
            simp [← hX, List.append_assoc]
        refine ⟨by simp [in_grammar, hadd, hmul], ?_, ?_⟩
        · intro hg
          simp [in_grammar, hadd, hmul] at hg
          exact hT hg.1 hg.2
        · intro hg st out rest hb
          simp [in_grammar, hadd, hmul] at hg
          obtain ⟨m, X, hm, hX, hc⟩ := hT hg.1 hg.2 st out rest (barrier_top_low st hb)
          exact ⟨m, X, mul_arith m hm, hX, hc⟩
      · exact ⟨by simp [in_grammar, hadd, hmul], by simp [in_grammar, hadd, hmul],
          by simp [in_grammar, hadd, hmul]⟩

/-- On the tokens of a tree of the grammar the conversion succeeds with the tree's
reverse Polish notation. -/
theorem convert_expr_tokens (e : Expr) (hg : in_grammar 2 e = true) :
    convert_to_reverse_polish (expr_tokens e) = .ok (polish_tokens e) := by
  obtain ⟨pend, X, hp, hX, hc⟩ := (convert_loop_expr e).2.2 hg [] [] [] rfl
  have hlb : LeftBracket ∉ pend := fun hm => by
    have := hp _ hm
    simp [is_operator_arithmetic] at this
  simp only [List.append_nil, List.nil_append] at hc
  simp only [convert_to_reverse_polish, hc, convert_loop]
  rw [drain_stack_ok _ _ hlb, hX]

/-! ## Correctness of the evaluation of a tree in reverse Polish notation -/

theorem in_grammar_bin (lvl : Nat) (o : Operator) (l r : Expr)
    (h : in_grammar lvl (Expr.bin o l r) = true) :
    is_operator_arithmetic o = true ∧ (∃ a, in_grammar a l = true) ∧ ∃ b, in_grammar b r = true := by
  by_cases hadd : o = Plus ∨ o = Minus
  · simp [in_grammar, hadd] at h
    exact ⟨by rcases hadd with rfl | rfl <;> rfl, ⟨2, h.1.2⟩, ⟨1, h.2⟩⟩
  · by_cases hmul : o = Multiply ∨ o = Division
    · simp [in_grammar, hadd, hmul] at h
      exact ⟨by rcases hmul with rfl | rfl <;> rfl, ⟨1, h.1.2⟩, ⟨0, h.2⟩⟩
    · simp [in_grammar, hadd, hmul] at h

/-- Evaluating the reverse Polish notation of a tree pushes the tree's value, or fails
with "Division by zero" when some divisor of the tree is rejected. -/
theorem calc_loop_polish (absf : ℚ → ℚ) (e : Expr) (lvl : Nat) (hg : in_grammar lvl e = true)
    (st : List ℚ) (rest : List Token) :
    calc_loop absf st (polish_tokens e ++ rest) =
      if division_fails absf e = true then .error Error.division_by_zero
      else calc_loop absf (tree_value e :: st) rest := by
  induction e generalizing lvl st rest with
  | num v => simp [polish_tokens, calc_loop, calc_step, division_fails, tree_value]
  | paren e ih =>
    have hg' : in_grammar 2 e = true := by simpa [in_grammar] using hg
    simpa [polish_tokens, division_fails, tree_value] using ih 2 hg' st rest
  | bin o l r ihl ihr =>
    obtain ⟨hoa, ⟨a, hl⟩, ⟨b, hr⟩⟩ := in_grammar_bin lvl o l r hg
    have h1 : polish_tokens (Expr.bin o l r) ++ rest
        = polish_tokens l ++ (polish_tokens r ++ (op o :: rest)) := by
      simp [polish_tokens]
    rw [h1, ihl a hl]
    by_cases hfl : division_fails absf l = true
    · simp [division_fails, hfl]
    · rw [if_neg hfl, ihr b hr]
      by_cases hfr : division_fails absf r = true
      · simp [division_fails, hfr]
      · rw [if_neg hfr]
        have hfl' : division_fails absf l = false := by simpa using hfl
        have hfr' : division_fails absf r = false := by simpa using hfr
        cases o with
        | Plus => simp [calc_loop, calc_step, apply_operator, is_operator_arithmetic,
            division_fails, tree_value, hfl', hfr']
        | Minus => simp [calc_loop, calc_step, apply_operator, is_operator_arithmetic,
            division_fails, tree_value, hfl', hfr']
        | Multiply => simp [calc_loop, calc_step, apply_operator, is_operator_arithmetic,
            division_fails, tree_value, hfl', hfr']
        | Division =>
          by_cases hd : absf (tree_value r) < eps
          · simp [calc_loop, calc_step, apply_operator, is_operator_arithmetic,
              division_fails, tree_value, hfl', hfr', hd]
          · simp [calc_loop, calc_step, apply_operator, is_operator_arithmetic,
              division_fails, tree_value, hfl', hfr', hd]
        | LeftBracket => simp [is_operator_arithmetic] at hoa
        | RightBracket => simp [is_operator_arithmetic] at hoa

theorem polish_tokens_ne_nil (e : Expr) : polish_tokens e ≠ [] := by
  cases e <;> simp [polish_tokens]
  case paren e => exact polish_tokens_ne_nil e

/-- Conversion followed by evaluation on the tokens of a tree of the grammar, for any
function standing for `abs`. -/
theorem calc_convert_expr (absf : ℚ → ℚ) (e : Expr) (hg : in_grammar 2 e = true) :
    ∃ rp, convert_to_reverse_polish (expr_tokens e) = .ok rp ∧
      calc_result_from_polish absf rp =
        if division_fails absf e = true then .error Error.division_by_zero
        else .ok (tree_value e) := by
  refine ⟨polish_tokens e, convert_expr_tokens e hg, ?_⟩
  have h := calc_loop_polish absf e 2 hg [] []
  rw [List.append_nil] at h
  simp only [calc_result_from_polish, polish_tokens_ne_nil e, if_false, h]
  by_cases hf : division_fails absf e = true
  · simp [hf]
  · simp [hf, calc_loop]

/-! ## C1: conversion and evaluation agree with the expression tree -/

theorem division_fails_abs_double (e : Expr) :
    division_fails abs_double e = has_tiny_divisor e := by
  induction e with
  | num v => rfl
  | paren e ih => simpa [division_fails, has_tiny_divisor] using ih
  | bin o l r ihl ihr => simp [division_fails, has_tiny_divisor, ihl, ihr, abs_double, eps]

/-- Conversion and evaluation under the magnitude reading of `abs`: for every token
sequence derived by the grammar (the tokens of a tree `e` of level `E`),
`convert_to_reverse_polish` succeeds and `calc_result_from_polish` on its output returns
the value of the tree, except that it fails with "Division by zero" exactly when some
division of the tree has a divisor of magnitude below `1e-9`.  For any other function
in the place of `abs` the same holds with its own divisor test (`calc_convert_expr`). -/
theorem C1_grammar_value (e : Expr) (hg : in_grammar 2 e = true) :
    ∃ rp, convert_to_reverse_polish (expr_tokens e) = .ok rp ∧
      calc_result_from_polish abs_double rp =
        if has_tiny_divisor e = true then .error Error.division_by_zero
        else .ok (tree_value e) := by
  obtain ⟨rp, h1, h2⟩ := calc_convert_expr abs_double e hg
  exact ⟨rp, h1, by rw [h2, division_fails_abs_double]⟩

/-- The two expressions named by claim C1, the tokens of
"62834501 * 231 + (5534121 - 312312312) * 132 - 123125345" and of "-1 + 5 - 3", give
`-26103076826` and `1`. -/
theorem C1_grammar_value_witness :
    (in_grammar 2 tree_of_test_4 = true ∧
      parse_normal_rotation
          "62834501 * 231 + (5534121 - 312312312) * 132 - 123125345".toList
        = .ok (expr_tokens tree_of_test_4) ∧
      ∃ rp, convert_to_reverse_polish (expr_tokens tree_of_test_4) = .ok rp ∧
        calc_result_from_polish abs_double rp = .ok (-26103076826)) ∧
    (in_grammar 2 tree_of_test_0 = true ∧
      parse_normal_rotation "-1 + 5 - 3".toList = .ok (expr_tokens tree_of_test_0) ∧
      ∃ rp, convert_to_reverse_polish (expr_tokens tree_of_test_0) = .ok rp ∧
        calc_result_from_polish abs_double rp = .ok 1) := by
  refine ⟨⟨by decide, ?_, ?_⟩, ⟨by decide, ?_, ?_⟩⟩
  · simp [parse_normal_rotation, scan_loop, from_chars, int_part,
      frac_part, after_sign, after_int, has_point, point_text, after_frac, exp_sign_text,
      exp_digits, has_exponent, exp_text, literal_text, literal_value, sign_text,
      digits_to_nat, digit_value,
      expr_tokens, tree_of_test_4]
  · obtain ⟨rp, h1, h2⟩ := C1_grammar_value tree_of_test_4 (by decide)
    refine ⟨rp, h1, ?_⟩
    rw [h2]
    norm_num [has_tiny_divisor, tree_value, tree_of_test_4, abs_lt]
  · simp [parse_normal_rotation, scan_loop, from_chars, int_part,
      frac_part, after_sign, after_int, has_point, point_text, after_frac, exp_sign_text,
      exp_digits, has_exponent, exp_text, literal_text, literal_value, sign_text,
      digits_to_nat, digit_value,
      expr_tokens, tree_of_test_0]
  · obtain ⟨rp, h1, h2⟩ := C1_grammar_value tree_of_test_0 (by decide)
    refine ⟨rp, h1, ?_⟩
    rw [h2]
    norm_num [has_tiny_divisor, tree_value, tree_of_test_0, abs_lt]

/-! ## C2, C5: parentheses and the length of the postfix sequence -/

/-- C2: a token sequence whose parentheses are not balanced (some prefix has more right
than left brackets, or the totals differ) makes `convert_to_reverse_polish` fail with
"Bad parentheses", so no postfix sequence is produced. -/
theorem C2_unbalanced_bad_parentheses (toks : List Token)
    (h : (∃ n, (toks.take n).count (op LeftBracket) < (toks.take n).count (op RightBracket)) ∨
      toks.count (op LeftBracket) ≠ toks.count (op RightBracket)) :
    convert_to_reverse_polish toks = .error Error.bad_parentheses := by
  rcases convert_to_reverse_polish_depth toks with ⟨_, h2⟩ | ⟨h1, _⟩
  · exact h2
  · exfalso
    obtain ⟨hp, ht⟩ := paren_depth_counts toks 0 0 h1
    rcases h with ⟨n, hn⟩ | hne
    · have := hp n; omega
    · omega

/-- Witness of C2 on the tokens of "(1+2" and of "(1+2))". -/
theorem C2_unbalanced_bad_parentheses_witness :
    parse_normal_rotation "(1+2".toList
        = .ok [num 0, op Plus, op LeftBracket, num 1, op Plus, num 2] ∧
      convert_to_reverse_polish [num 0, op Plus, op LeftBracket, num 1, op Plus, num 2]
        = .error Error.bad_parentheses ∧
      parse_normal_rotation "(1+2))".toList
        = .ok [num 0, op Plus, op LeftBracket, num 1, op Plus, num 2, op RightBracket,
            op RightBracket] ∧
      convert_to_reverse_polish
          [num 0, op Plus, op LeftBracket, num 1, op Plus, num 2, op RightBracket,
            op RightBracket]
        = .error Error.bad_parentheses :=
  ⟨by simp [parse_normal_rotation, scan_loop, from_chars, int_part,
      frac_part, after_sign, after_int, has_point, point_text, after_frac, exp_sign_text,
      exp_digits, has_exponent, exp_text, literal_text, literal_value, sign_text,
      digits_to_nat, digit_value],
   C2_unbalanced_bad_parentheses _ (Or.inr (by decide)),
   by simp [parse_normal_rotation, scan_loop, from_chars, int_part,
      frac_part, after_sign, after_int, has_point, point_text, after_frac, exp_sign_text,
      exp_digits, has_exponent, exp_text, literal_text, literal_value, sign_text,
      digits_to_nat, digit_value],
   C2_unbalanced_bad_parentheses _ (Or.inl ⟨8, by decide⟩)⟩

/-- The conversion loop keeps brackets out of the output and counts every number and
arithmetic operator once, in the output or on the stack. -/
theorem convert_loop_length (toks : List Token) (st : List Operator) (out : List Token)
    (hst : RightBracket ∉ st) (hout : ∀ t ∈ out, t ≠ op LeftBracket ∧ t ≠ op RightBracket)
    (st1 : List Operator) (out1 : List Token)
    (h : convert_loop (st, out) toks = .ok (st1, out1)) :
    RightBracket ∉ st1 ∧ (∀ t ∈ out1, t ≠ op LeftBracket ∧ t ≠ op RightBracket) ∧
      out1.length + st1.countP is_operator_arithmetic + toks.count (op LeftBracket)
          + toks.count (op RightBracket)
        = out.length + st.countP is_operator_arithmetic + toks.length := by
  induction toks generalizing st out with
  | nil =>
    simp only [convert_loop] at h
    cases h
    exact ⟨hst, hout, by simp⟩
  | cons t ts ih =>
    have hmap : ∀ popped : List Operator, (∀ x ∈ popped, is_operator_arithmetic x = true) →
        ∀ t ∈ out ++ popped.map op, t ≠ op LeftBracket ∧ t ≠ op RightBracket := by
      intro popped hp t ht
      rcases List.mem_append.1 ht with h1 | h1
      · exact hout t h1
      · obtain ⟨x, hx, rfl⟩ := List.mem_map.1 h1
        have := arith_ne_brackets x (hp x hx)
        exact ⟨fun e => this.1 (by cases e; rfl), fun e => this.2 (by cases e; rfl)⟩
    have hcp : ∀ popped : List Operator, (∀ x ∈ popped, is_operator_arithmetic x = true) →
        popped.countP is_operator_arithmetic = popped.length := by
      intro popped hp
      exact List.countP_eq_length.2 hp
    rcases convert_token_cases st out t hst with
      ⟨v, ht, e⟩ | ⟨o, popped, rest, ht, ho, hs, hp, e⟩ | ⟨ht, e⟩ | ⟨popped, rest, ht, hs, hp, e⟩ |
      ⟨ht, ha, e⟩
    · subst ht
      simp only [convert_loop, e] at h
      have hout1 : ∀ t ∈ out ++ [num v], t ≠ op LeftBracket ∧ t ≠ op RightBracket := by
        intro t ht
        rcases List.mem_append.1 ht with h1 | h1
        · exact hout t h1
        · simp at h1; subst h1; simp
      obtain ⟨h1, h2, h3⟩ := ih st _ hst hout1 h
      refine ⟨h1, h2, ?_⟩
      simp at h3 ⊢
      omega
    · subst ht
      have hst1 := convert_token_no_rb st out (op o) hst _ _ e
      simp only [convert_loop, e] at h
      obtain ⟨h1, h2, h3⟩ := ih _ _ hst1 (hmap popped hp) h
      refine ⟨h1, h2, ?_⟩
      have hl : (op LeftBracket : Token) ≠ op o := by
        intro e; cases e; simp [is_operator_arithmetic] at ho
      have hr : (op RightBracket : Token) ≠ op o := by
        intro e; cases e; simp [is_operator_arithmetic] at ho
      rw [List.count_cons_of_ne hl, List.count_cons_of_ne hr]
      rw [hs, List.countP_append, hcp popped hp]
      simp [List.countP_cons, ho, List.length_append] at h3 ⊢
      omega
    · subst ht
      have hst1 := convert_token_no_rb st out (op LeftBracket) hst _ _ e
      simp only [convert_loop, e] at h
      obtain ⟨h1, h2, h3⟩ := ih _ _ hst1 hout h
      refine ⟨h1, h2, ?_⟩
      simp [List.countP_cons, is_operator_arithmetic] at h3 ⊢
      omega
    · subst ht
      have hst1 := convert_token_no_rb st out (op RightBracket) hst _ _ e
      simp only [convert_loop, e] at h
      obtain ⟨h1, h2, h3⟩ := ih _ _ hst1 (hmap popped hp) h
      refine ⟨h1, h2, ?_⟩
      rw [hs, List.countP_append, hcp popped hp]
      simp [List.countP_cons, is_operator_arithmetic, List.length_append] at h3 ⊢
      omega
    · simp only [convert_loop, e] at h
      cases h

/-- C5: when `convert_to_reverse_polish` succeeds, the postfix sequence has as many
tokens as the input has tokens other than brackets, and holds no bracket. -/
theorem C5_postfix_length (toks rp : List Token)
    (h : convert_to_reverse_polish toks = .ok rp) :
    rp.length = toks.length - (toks.count (op LeftBracket) + toks.count (op RightBracket)) ∧
      op LeftBracket ∉ rp ∧ op RightBracket ∉ rp := by
  unfold convert_to_reverse_polish at h
  cases hc : convert_loop ([], []) toks with
  | error e => rw [hc] at h; cases h
  | ok state =>
    obtain ⟨st1, out1⟩ := state
    rw [hc] at h
    simp only at h
    obtain ⟨h1, h2, h3⟩ := convert_loop_length toks [] [] (by simp) (by simp) st1 out1 hc
    have hlb : LeftBracket ∉ st1 := by
      intro hm
      rw [drain_stack_error _ _ hm] at h
      cases h
    rw [drain_stack_ok _ _ hlb] at h
    cases h
    have hall : ∀ x ∈ st1, is_operator_arithmetic x = true := by
      intro x hx
      cases x <;> simp_all [is_operator_arithmetic]
    have hcp : st1.countP is_operator_arithmetic = st1.length := List.countP_eq_length.2 hall
    refine ⟨?_, ?_, ?_⟩
    · simp at h3 ⊢
      omega
    · intro hm
      rcases List.mem_append.1 hm with h4 | h4
      · exact (h2 _ h4).1 rfl
      · obtain ⟨x, hx, e⟩ := List.mem_map.1 h4
        cases e
        exact hlb hx
    · intro hm
      rcases List.mem_append.1 hm with h4 | h4
      · exact (h2 _ h4).2 rfl
      · obtain ⟨x, hx, e⟩ := List.mem_map.1 h4
        cases e
        exact h1 hx

/-- Witness of C5 on the tokens of "(1+2)*3". -/
theorem C5_postfix_length_witness :
    convert_to_reverse_polish
        [num 0, op Plus, op LeftBracket, num 1, op Plus, num 2, op RightBracket, op Multiply,
          num 3]
      = .ok [num 0, num 1, num 2, op Plus, num 3, op Multiply, op Plus] ∧
    ([num 0, num 1, num 2, op Plus, num 3, op Multiply, op Plus] : List Token).length
      = ([num 0, op Plus, op LeftBracket, num 1, op Plus, num 2, op RightBracket, op Multiply,
          num 3] : List Token).length
        - (([num 0, op Plus, op LeftBracket, num 1, op Plus, num 2, op RightBracket,
              op Multiply, num 3] : List Token).count (op LeftBracket)
          + ([num 0, op Plus, op LeftBracket, num 1, op Plus, num 2, op RightBracket,
              op Multiply, num 3] : List Token).count (op RightBracket)) ∧
      op LeftBracket ∉ ([num 0, num 1, num 2, op Plus, num 3, op Multiply, op Plus] : List Token) ∧
      op RightBracket ∉ ([num 0, num 1, num 2, op Plus, num 3, op Multiply, op Plus] : List Token) :=
  have hc : convert_to_reverse_polish
        [num 0, op Plus, op LeftBracket, num 1, op Plus, num 2, op RightBracket, op Multiply,
          num 3]
      = .ok [num 0, num 1, num 2, op Plus, num 3, op Multiply, op Plus] := by
    simp [convert_to_reverse_polish, convert_loop, convert_token, pop_for_operator,
      pop_for_bracket, drain_stack, is_operator_arithmetic, is_first_greater_priority]
  ⟨hc, C5_postfix_length _ _ hc⟩

/-! ## C3, C4: division by zero and operand order -/

/-- C3: at every point of the evaluation of a postfix sequence where `Division` is applied
to a top-of-stack value `a` with `|a| < 1e-9` (and a dividend `b` below it),
`calc_result_from_polish` fails with "Division by zero".  This holds for every function
`absf` standing for `abs` that is below `1e-9` on such `a`, which is so for the magnitude
and for the `int` version alike. -/
theorem C3_division_by_zero (absf : ℚ → ℚ)
    (habs : ∀ x : ℚ, |x| < 1 / 1000000000 → absf x < eps)
    (before after : List Token) (a b : ℚ) (rest : List ℚ)
    (hbefore : calc_loop absf [] before = .ok (a :: b :: rest))
    (ha : |a| < 1 / 1000000000) :
    calc_result_from_polish absf (before ++ op Division :: after)
      = .error Error.division_by_zero := by
  have hne : before ++ op Division :: after ≠ [] := by simp
  have hstep : calc_step absf (a :: b :: rest) (op Division) = .error Error.division_by_zero := by
    simp [calc_step, apply_operator, is_operator_arithmetic, habs a ha]
  simp [calc_result_from_polish, calc_loop_append, hbefore, calc_loop, hstep]

/-- Witness of C3 on the input "1/0", for both readings of `abs`. -/
theorem C3_division_by_zero_witness :
    ((∀ x : ℚ, |x| < 1 / 1000000000 → abs_double x < eps) ∧
      calc_loop abs_double [] [num 0, num 1, num 0] = .ok [0, 1, 0] ∧
      |(0 : ℚ)| < 1 / 1000000000 ∧
      calc_result_from_polish abs_double ([num 0, num 1, num 0] ++ op Division :: [op Plus])
        = .error Error.division_by_zero) ∧
    ((∀ x : ℚ, |x| < 1 / 1000000000 → abs_int x < eps) ∧
      calc_result_from_polish abs_int ([num 0, num 1, num 0] ++ op Division :: [op Plus])
        = .error Error.division_by_zero) ∧
    convert_to_reverse_polish [num 0, op Plus, num 1, op Division, num 0]
      = .ok ([num 0, num 1, num 0] ++ op Division :: [op Plus]) ∧
    parse_normal_rotation "1/0".toList = .ok [num 0, op Plus, num 1, op Division, num 0] :=
  have h1 : ∀ x : ℚ, |x| < 1 / 1000000000 → abs_double x < eps :=
    fun x hx => abs_double_small x (by simpa [eps] using hx)
  have h2 : ∀ x : ℚ, |x| < 1 / 1000000000 → abs_int x < eps :=
    fun x hx => abs_int_small x (by simpa [eps] using hx)
  have h0 : |(0 : ℚ)| < 1 / 1000000000 := by norm_num
  ⟨⟨h1, by simp [calc_loop, calc_step], h0,
      C3_division_by_zero abs_double h1 [num 0, num 1, num 0] [op Plus] 0 1 [0]
        (by simp [calc_loop, calc_step]) h0⟩,
    ⟨h2, C3_division_by_zero abs_int h2 [num 0, num 1, num 0] [op Plus] 0 1 [0]
        (by simp [calc_loop, calc_step]) h0⟩,
    by simp [convert_to_reverse_polish, convert_loop, convert_token, pop_for_operator,
      drain_stack, is_operator_arithmetic, is_first_greater_priority],
    by simp [parse_normal_rotation, scan_loop, from_chars, int_part, frac_part, after_sign,
      after_int, has_point, point_text, after_frac, exp_sign_text, exp_digits, has_exponent,
      exp_text, literal_text, literal_value, sign_text, digits_to_nat, digit_value]⟩

/-- C4: on a stack `a :: b :: rest` (top `a`), one evaluator step on an arithmetic operator
removes `a` and `b` and pushes `b op a`, leaving `rest` as it is: always for `Plus`, `Minus`
and `Multiply`, and for `Division` whenever the divisor test does not fire (when it fires
the step is the "Division by zero" failure).  So `[x, y, Minus]` evaluates to `x - y`, and
`[x, y, Division]` to `x / y` unless the test fires on `y`. -/
theorem C4_operand_order (absf : ℚ → ℚ) (a b x y : ℚ) (rest : List ℚ) :
    calc_step absf (a :: b :: rest) (op Plus) = .ok ((b + a) :: rest) ∧
    calc_step absf (a :: b :: rest) (op Minus) = .ok ((b - a) :: rest) ∧
    calc_step absf (a :: b :: rest) (op Multiply) = .ok ((b * a) :: rest) ∧
    calc_step absf (a :: b :: rest) (op Division)
      = (if absf a < eps then .error Error.division_by_zero else .ok ((b / a) :: rest)) ∧
    calc_result_from_polish absf [num x, num y, op Minus] = .ok (x - y) ∧
    calc_result_from_polish absf [num x, num y, op Division]
      = (if absf y < eps then .error Error.division_by_zero else .ok (x / y)) := by
  refine ⟨?_, ?_, ?_, ?_, ?_, ?_⟩
  · simp [calc_step, apply_operator, is_operator_arithmetic]
  · simp [calc_step, apply_operator, is_operator_arithmetic]
  · simp [calc_step, apply_operator, is_operator_arithmetic]
  · by_cases h : absf a < eps
    · simp [calc_step, apply_operator, is_operator_arithmetic, h]
    · simp [calc_step, apply_operator, is_operator_arithmetic, h]
  · simp [calc_step, apply_operator, is_operator_arithmetic, calc_result_from_polish, calc_loop]
  · by_cases h : absf y < eps
    · simp [calc_step, apply_operator, is_operator_arithmetic, calc_result_from_polish,
        calc_loop, h]
    · simp [calc_step, apply_operator, is_operator_arithmetic, calc_result_from_polish,
        calc_loop, h]

/-- Witness of C4: with top `a = 0` and `b = 6` on the stack `[0, 6, 7]`, where the divisor
test would fire, `Plus`, `Minus` and `Multiply` still push `b op a`; with `a = 2` the
division pushes `6 / 2`; and the sequences `[6, 3, Minus]`, `[6, 3, Division]` give `6 - 3`
and `6 / 3`.  The function in the place of `abs` is the `int` version in the first part and
the magnitude in the second. -/
theorem C4_operand_order_witness :
    (abs_int 0 < eps ∧
      calc_step abs_int [0, 6, 7] (op Plus) = .ok [6 + 0, 7] ∧
      calc_step abs_int [0, 6, 7] (op Minus) = .ok [6 - 0, 7] ∧
      calc_step abs_int [0, 6, 7] (op Multiply) = .ok [6 * 0, 7] ∧
      calc_result_from_polish abs_int [num 6, num 0, op Minus] = .ok (6 - 0)) ∧
    (¬ abs_double 2 < eps ∧ ¬ abs_double 3 < eps) ∧
    calc_step abs_double [2, 6, 7] (op Minus) = .ok [6 - 2, 7] ∧
    calc_step abs_double [2, 6, 7] (op Division) = .ok [6 / 2, 7] ∧
    calc_result_from_polish abs_double [num 6, num 3, op Minus] = .ok (6 - 3) ∧
    calc_result_from_polish abs_double [num 6, num 3, op Division] = .ok (6 / 3) :=
  have h0 : abs_int 0 < eps := by norm_num [abs_int, eps]
  have h2 : ¬ abs_double 2 < eps := by norm_num [abs_double, eps]
  have h3 : ¬ abs_double 3 < eps := by norm_num [abs_double, eps]
  have hz := C4_operand_order abs_int 0 6 6 0 [7]
  have h := C4_operand_order abs_double 2 6 6 3 [7]
  ⟨⟨h0, hz.1, hz.2.1, hz.2.2.1, hz.2.2.2.2.1⟩, ⟨h2, h3⟩, h.2.1,
    h.2.2.2.1.trans (if_neg h2), h.2.2.2.2.1, h.2.2.2.2.2.trans (if_neg h3)⟩

/-! ## C6, C7: inputs that reach the evaluator's assertions -/

/-- C6 (failing inputs): conversion succeeds on the tokens of "1+" and of "1 2", and the
evaluator then violates `assert(res_stack.size() >= 2)`, respectively
`assert(res_stack.size() == 1)`. -/
theorem C6_assertions_reached (absf : ℚ → ℚ) :
    parse_normal_rotation "1+".toList = .ok [num 0, op Plus, num 1, op Plus] ∧
    convert_to_reverse_polish [num 0, op Plus, num 1, op Plus]
      = .ok [num 0, num 1, op Plus, op Plus] ∧
    calc_loop absf [] [num 0, num 1, op Plus] = .ok [0 + 1] ∧
    calc_step absf [0 + 1] (op Plus) = .error Error.assertion ∧
    Caluclate absf "1+".toList = .error Error.assertion ∧
    parse_normal_rotation "1 2".toList = .ok [num 0, op Plus, num 1, num 2] ∧
    convert_to_reverse_polish [num 0, op Plus, num 1, num 2]
      = .ok [num 0, num 1, num 2, op Plus] ∧
    calc_loop absf [] [num 0, num 1, num 2, op Plus] = .ok [1 + 2, 0] ∧
    Caluclate absf "1 2".toList = .error Error.assertion := by
  simp [Caluclate, check_on_ascii, preprocess_str, parse_normal_rotation, scan_loop, from_chars,
    int_part, frac_part, after_sign, after_int, has_point, point_text, after_frac,
    exp_sign_text, exp_digits, has_exponent, exp_text, literal_text, literal_value, sign_text,
    digits_to_nat, digit_value, convert_to_reverse_polish, convert_loop, convert_token,
    pop_for_operator, drain_stack, is_operator_arithmetic, is_first_greater_priority,
    calc_result_from_polish, calc_loop, calc_step, apply_operator]

/-- C7 (failing input): on " -1" the first non-whitespace character is `'-'`, but the
tokenizer looks at `str[0]`, a space, and emits the implicit `Plus` before the `Minus`; the
evaluation then stops at `assert(res_stack.size() >= 2)`. -/
theorem C7_space_before_sign (absf : ℚ → ℚ) :
    parse_normal_rotation " -1".toList = .ok [num 0, op Plus, op Minus, num 1] ∧
    parse_normal_rotation "-1".toList = .ok [num 0, op Minus, num 1] ∧
    Caluclate absf " -1".toList = .error Error.assertion ∧
    Caluclate absf "-1".toList = .ok (0 - 1) := by
  simp [Caluclate, check_on_ascii, preprocess_str, parse_normal_rotation, scan_loop, from_chars,
    int_part, frac_part, after_sign, after_int, has_point, point_text, after_frac,
    exp_sign_text, exp_digits, has_exponent, exp_text, literal_text, literal_value, sign_text,
    digits_to_nat, digit_value, convert_to_reverse_polish, convert_loop, convert_token,
    pop_for_operator, drain_stack, is_operator_arithmetic, is_first_greater_priority,
    calc_result_from_polish, calc_loop, calc_step, apply_operator]

/-! ## C8, C9, C10: the checks before and during tokenizing -/

theorem check_on_ascii_error (str : List Char) (c : Char) (hc : c ∈ str) (h : c.toNat > 127) :
    check_on_ascii str = .error Error.not_ascii := by
  induction str with
  | nil => simp at hc
  | cons d ds ih =>
    by_cases hd : d.toNat > 127
    · simp [check_on_ascii, hd]
    · have : c ∈ ds := by
        rcases List.mem_cons.1 hc with rfl | h1
        · exact absurd h hd
        · exact h1
      simp [check_on_ascii, hd, ih this]

theorem check_on_ascii_ok (str : List Char) (h : ∀ c ∈ str, c.toNat ≤ 127) :
    check_on_ascii str = .ok () := by
  induction str with
  | nil => rfl
  | cons d ds ih =>
    have hd : ¬ d.toNat > 127 := by have := h d (List.mem_cons_self _ _); omega
    simp [check_on_ascii, hd, ih (fun c hc => h c (List.mem_cons_of_mem _ hc))]

/-- C8: an input with a character whose code exceeds 127 makes `Caluclate` fail with
"Bad input, supports only ascii characters", whatever else the input contains: the check
runs before the tokenizer, the converter and the evaluator. -/
theorem C8_not_ascii_first (absf : ℚ → ℚ) (str : List Char) (c : Char) (hc : c ∈ str)
    (h : c.toNat > 127) :
    Caluclate absf str = .error Error.not_ascii := by
  have hne : str ≠ [] := by rintro rfl; simp at hc
  simp [Caluclate, hne, check_on_ascii_error str c hc h]

/-- Witness of C8 on "1/0 + (é abc", which also has an unknown character, an open
parenthesis and a division by zero. -/
theorem C8_not_ascii_first_witness :
    ('é' ∈ "1/0 + (é abc".toList ∧ 'é'.toNat > 127) ∧
      Caluclate abs_double "1/0 + (é abc".toList = .error Error.not_ascii :=
  ⟨⟨by decide, by decide⟩, C8_not_ascii_first abs_double _ 'é' (by decide) (by decide)⟩

/-- C9 as stated fails on "1e5": the input is ASCII and contains `'e'`, which is none of
the listed characters, yet `Caluclate` returns `100000`, with either reading of `abs`. -/
theorem C9_counterexample :
    "1e5".toList ≠ [] ∧ ("1e5".toList.all fun c => decide (c.toNat ≤ 127)) = true ∧
      ("1e5".toList.any fun c => !plain_char c) = true ∧
      Caluclate abs_double "1e5".toList = .ok 100000 ∧
      Caluclate abs_int "1e5".toList = .ok 100000 := by
  refine ⟨by decide, by decide, by decide, ?_, ?_⟩
  · simp [Caluclate, check_on_ascii, preprocess_str, parse_normal_rotation, scan_loop,
      from_chars, int_part, frac_part, after_sign, after_int, has_point, point_text,
      after_frac, exp_sign_text, exp_digits, has_exponent, exp_text, literal_text,
      literal_value, sign_text, digits_to_nat, digit_value, convert_to_reverse_polish,
      convert_loop, convert_token, pop_for_operator, drain_stack, is_operator_arithmetic,
      is_first_greater_priority, calc_result_from_polish, calc_loop, calc_step,
      apply_operator]
    norm_num
  · simp [Caluclate, check_on_ascii, preprocess_str, parse_normal_rotation, scan_loop,
      from_chars, int_part, frac_part, after_sign, after_int, has_point, point_text,
      after_frac, exp_sign_text, exp_digits, has_exponent, exp_text, literal_text,
      literal_value, sign_text, digits_to_nat, digit_value, convert_to_reverse_polish,
      convert_loop, convert_token, pop_for_operator, drain_stack, is_operator_arithmetic,
      is_first_greater_priority, calc_result_from_polish, calc_loop, calc_step,
      apply_operator]
    norm_num

/-- C9, amended: an ASCII input whose first character other than a digit, `'.'`, `','`, a
space and the six operator characters is none of `e`, `E`, `i`, `I`, `n`, `N` makes
`Caluclate` fail with "Couldnt parse, bad character". -/
theorem C9_bad_character (absf : ℚ → ℚ) (str before after : List Char) (c0 : Char)
    (hstr : str = before ++ c0 :: after) (hascii : ∀ c ∈ str, c.toNat ≤ 127)
    (hbefore : ∀ c ∈ before, plain_char c = true) (hc0 : plain_char c0 = false)
    (hletter : c0 ∉ ['e', 'E', 'i', 'I', 'n', 'N']) :
    Caluclate absf str = .error Error.bad_character := by
  have _ := hbefore
  have hne : str ≠ [] := by rw [hstr]; simp
  have hp : plain_char c0 = false := hc0
  simp only [plain_char, Bool.or_eq_false_iff, decide_eq_false_iff_not] at hp
  obtain ⟨⟨⟨⟨⟨⟨⟨⟨⟨hdig, hdot⟩, hcomma⟩, hsp⟩, hplus⟩, hminus⟩, hmul⟩, hdiv⟩, hlp⟩, hrp⟩ := hp
  have he : c0 ≠ 'e' ∧ c0 ≠ 'E' := by
    constructor <;> (intro e; subst e; simp at hletter)
  have hlit : literal_char c0 = false := by
    simp [literal_char, hdig, hdot, he.1, he.2, hplus, hminus]
  have hmem : c0 ∈ preprocess_str str := by
    rw [hstr]
    simp only [preprocess_str, List.map_append, List.map_cons, List.mem_append, List.mem_cons]
    right; left
    simp [hcomma]
  have hscan : parse_normal_rotation (preprocess_str str) = .error Error.bad_character := by
    unfold parse_normal_rotation
    exact scan_loop_bad_character _ _ _ (le_refl _) c0 hmem hlit ⟨hsp, hmul, hdiv, hlp, hrp⟩
  simp [Caluclate, hne, check_on_ascii_ok str hascii, hscan]

/-- Witness of C9 (amended) on "1.1 + 2.1 + abc". -/
theorem C9_bad_character_witness :
    ("1.1 + 2.1 + abc".toList = "1.1 + 2.1 + ".toList ++ 'a' :: "bc".toList ∧
      (∀ c ∈ "1.1 + 2.1 + abc".toList, c.toNat ≤ 127) ∧
      (∀ c ∈ "1.1 + 2.1 + ".toList, plain_char c = true) ∧ plain_char 'a' = false ∧
      'a' ∉ ['e', 'E', 'i', 'I', 'n', 'N']) ∧
    Caluclate abs_double "1.1 + 2.1 + abc".toList = .error Error.bad_character :=
  ⟨⟨by decide, by decide, by decide, by decide, by decide⟩,
    C9_bad_character abs_double _ "1.1 + 2.1 + ".toList "bc".toList 'a' (by decide) (by decide)
      (by decide) (by decide) (by decide)⟩

theorem preprocess_str_idem (s : List Char) : preprocess_str (preprocess_str s) = preprocess_str s := by
  simp only [preprocess_str, List.map_map]
  apply List.map_congr_left
  intro c _
  by_cases h : c = ','
  · simp [h]
  · simp [h]

theorem check_on_ascii_preprocess (s : List Char) :
    check_on_ascii (preprocess_str s) = check_on_ascii s := by
  induction s with
  | nil => rfl
  | cons c cs ih =>
    have ih' : check_on_ascii (List.map (fun c => if c = ',' then '.' else c) cs)
        = check_on_ascii cs := ih
    by_cases h : c = ','
    · subst h
      have h1 : ¬ ('.'.toNat > 127) := by decide
      have h2 : ¬ (','.toNat > 127) := by decide
      simp [preprocess_str, check_on_ascii, h1, h2, ih']
    · simp [preprocess_str, check_on_ascii, h, ih']

/-- C10: `Caluclate` on `s` has the outcome of `Caluclate` on `s` with every `','`
replaced by `'.'`; `preprocess_str` keeps the length and changes exactly the commas. -/
theorem C10_comma_is_point (absf : ℚ → ℚ) (s : List Char) :
    Caluclate absf s = Caluclate absf (s.map fun c => if c = ',' then '.' else c) ∧
    (preprocess_str s).length = s.length ∧
    ∀ i : Nat, (preprocess_str s)[i]? = (s[i]?).map fun c => if c = ',' then '.' else c := by
  refine ⟨?_, by simp [preprocess_str], ?_⟩
  · have hidem := preprocess_str_idem s
    have hasc := check_on_ascii_preprocess s
    have hnil : (List.map (fun c => if c = ',' then '.' else c) s = []) ↔ s = [] := by simp
    have hdef : List.map (fun c => if c = ',' then '.' else c) s = preprocess_str s := rfl
    by_cases hs : s = []
    · subst hs; rfl
    · have hs' : preprocess_str s ≠ [] := by rw [← hdef]; exact fun h => hs (hnil.1 h)
      rw [hdef]
      unfold Caluclate
      rw [if_neg hs, if_neg hs', hasc, hidem]
  · intro i
    simp [preprocess_str]

/-! ## C12, C14, C17 -/

/-- C14: the conversion never ends in a violated assertion, on any token sequence, and the
operator stack never holds a right bracket: every call of `is_first_greater_priority` made
by the operator loop has arithmetic arguments, a left bracket on top being tested first. -/
theorem C14_priority_arguments (toks : List Token) :
    convert_to_reverse_polish toks ≠ .error Error.assertion ∧
    (∀ st out, convert_loop ([], []) toks = .ok (st, out) → RightBracket ∉ st) ∧
    (∀ (o : Operator) (st : List Operator) (out : List Token),
      is_operator_arithmetic o = true → RightBracket ∉ st →
        pop_for_operator o st out ≠ .error Error.assertion) ∧
    (∀ (o : Operator) (st : List Operator) (out : List Token),
      pop_for_operator o (LeftBracket :: st) out = .ok (LeftBracket :: st, out)) := by
  refine ⟨?_, ?_, ?_, ?_⟩
  · rcases convert_to_reverse_polish_depth toks with ⟨_, h⟩ | ⟨_, rp, h⟩
    · rw [h]; simp
    · rw [h]; simp
  · intro st out h
    rcases convert_loop_depth toks [] [] (by simp) with ⟨_, h2⟩ | ⟨st1, out1, h1, h2, _⟩
    · rw [h2] at h; cases h
    · rw [h1] at h; cases h; exact h2
  · intro o st out ho hst
    obtain ⟨popped, rest, _, _, h⟩ := pop_for_operator_spec o ho st out hst
    rw [h]; simp
  · intro o st out
    simp [pop_for_operator]

/-- A sequence in which no beginning has more right than left brackets keeps the depth
defined. -/
theorem paren_depth_defined (toks : List Token) (d : Nat)
    (h : ∀ n, (toks.take n).count (op RightBracket) ≤ d + (toks.take n).count (op LeftBracket)) :
    ∃ d1, paren_depth d toks = some d1 := by
  induction toks generalizing d with
  | nil => exact ⟨d, paren_depth_nil d⟩
  | cons t ts ih =>
    cases t with
    | num v =>
      have hpd : paren_depth d (num v :: ts) = paren_depth d ts := by
        cases d <;> simp [paren_depth]
      rw [hpd]
      apply ih
      intro n
      simpa using h (n + 1)
    | op o =>
      by_cases ho : is_operator_arithmetic o = true
      · have hpd : paren_depth d (op o :: ts) = paren_depth d ts := by
          cases o <;> cases d <;> simp [paren_depth, is_operator_arithmetic] at ho ⊢
        have hl : (op LeftBracket : Token) ≠ op o := by
          intro e; cases e; simp [is_operator_arithmetic] at ho
        have hr : (op RightBracket : Token) ≠ op o := by
          intro e; cases e; simp [is_operator_arithmetic] at ho
        rw [hpd]
        apply ih
        intro n
        have := h (n + 1)
        rw [List.take_succ_cons, List.count_cons_of_ne hl, List.count_cons_of_ne hr] at this
        exact this
      · have ho1 : is_operator_arithmetic o = false := by simpa using ho
        rcases not_arith_cases o ho1 with rfl | rfl
        · have hpd : paren_depth d (op LeftBracket :: ts) = paren_depth (d + 1) ts := by
            cases d <;> simp [paren_depth]
          rw [hpd]
          apply ih
          intro n
          have := h (n + 1)
          simp at this ⊢
          omega
        · cases d with
          | zero =>
            have := h 1
            simp at this
          | succ d =>
            simp only [paren_depth]
            apply ih
            intro n
            have := h (n + 1)
            simp at this ⊢
            omega

/-- C17: `convert_to_reverse_polish` succeeds exactly on the token sequences with balanced
parentheses (no beginning has more right than left brackets, and the totals are equal),
whatever the numbers and arithmetic operators are; on every other sequence it fails with
"Bad parentheses". -/
theorem C17_balanced_converts (toks : List Token) :
    (((∀ n, (toks.take n).count (op RightBracket) ≤ (toks.take n).count (op LeftBracket)) ∧
        toks.count (op LeftBracket) = toks.count (op RightBracket)) ↔
      ∃ rp, convert_to_reverse_polish toks = .ok rp) ∧
    ((∃ rp, convert_to_reverse_polish toks = .ok rp) ∨
      convert_to_reverse_polish toks = .error Error.bad_parentheses) := by
  constructor
  · constructor
    · rintro ⟨hp, ht⟩
      obtain ⟨d1, hd⟩ := paren_depth_defined toks 0 (by simpa using hp)
      have hz : d1 = 0 := by
        have := (paren_depth_counts toks 0 d1 hd).2
        omega
      subst hz
      rcases convert_to_reverse_polish_depth toks with ⟨h1, _⟩ | ⟨_, h2⟩
      · exact absurd hd h1
      · exact h2
    · rintro ⟨rp, hrp⟩
      rcases convert_to_reverse_polish_depth toks with ⟨_, h2⟩ | ⟨h1, _⟩
      · rw [h2] at hrp; cases hrp
      · obtain ⟨hp, ht⟩ := paren_depth_counts toks 0 0 h1
        exact ⟨fun n => by simpa using hp n, by omega⟩
  · rcases convert_to_reverse_polish_depth toks with ⟨_, h2⟩ | ⟨_, h2⟩
    · exact Or.inr h2
    · exact Or.inl h2

/-! ## C13: which operators the operator loop pops -/

theorem is_first_greater_priority_eq (o x : Operator) (ho : is_operator_arithmetic o = true)
    (hx : is_operator_arithmetic x = true) :
    is_first_greater_priority o x = .ok (decide (priority x < priority o)) := by
  cases o <;> cases x <;>
    simp [is_first_greater_priority, is_operator_arithmetic, priority] at ho hx ⊢

/-- The operator loop pops the longest run of stack entries that are no left bracket and
over which the new operator has no strictly greater priority. -/
theorem pop_for_operator_eq (o : Operator) (ho : is_operator_arithmetic o = true)
    (st : List Operator) (out : List Token) (hst : RightBracket ∉ st) :
    pop_for_operator o st out
      = .ok (st.dropWhile (is_popped o), out ++ (st.takeWhile (is_popped o)).map op) := by
  induction st generalizing out with
  | nil => simp [pop_for_operator]
  | cons x xs ih =>
    have hxs : RightBracket ∉ xs := fun h => hst (List.mem_cons_of_mem _ h)
    have hx : x ≠ RightBracket := fun h => hst (h ▸ List.mem_cons_self _ _)
    by_cases hlb : x = LeftBracket
    · subst hlb
      simp [pop_for_operator, is_popped, List.takeWhile_cons, List.dropWhile_cons]
    · have hxa : is_operator_arithmetic x = true := by
        cases x <;> simp_all [is_operator_arithmetic]
      by_cases hp : priority x < priority o
      · simp [pop_for_operator, hlb, is_first_greater_priority_eq o x ho hxa, hp, is_popped,
          List.takeWhile_cons, List.dropWhile_cons]
      · simp [pop_for_operator, hlb, is_first_greater_priority_eq o x ho hxa, hp, is_popped,
          List.takeWhile_cons, List.dropWhile_cons, ih _ hxs]

/-- C13 as stated fails: with `Multiply` on top and the new operator `Plus`, the top has
strictly greater priority and is popped all the same; with `Plus` on top and the new
operator `Multiply`, the top has no strictly greater priority and stays. -/
theorem C13_counterexample :
    (priority Plus < priority Multiply ∧
      convert_token ([Multiply], []) (op Plus) = .ok ([Plus], [op Multiply])) ∧
    (¬ priority Multiply < priority Plus ∧
      convert_token ([Plus], []) (op Multiply) = .ok ([Multiply, Plus], [])) := by
  simp [priority, convert_token, pop_for_operator, is_first_greater_priority,
    is_operator_arithmetic]

/-- C13, amended: when the conversion processes an arithmetic operator `o` with an
arithmetic operator `top` on the stack, `top` is popped to the output before `o` is pushed
if and only if the priority of `o` is not strictly greater than the priority of `top` (an
equal-priority `top` is popped), and the popping repeats until the stack is empty, its top
is a left bracket, or `o` has strictly greater priority than the top. -/
theorem C13_pop_rule (o top : Operator) (rest : List Operator) (out : List Token)
    (ho : is_operator_arithmetic o = true) (htop : is_operator_arithmetic top = true)
    (hrest : RightBracket ∉ rest) :
    convert_token (top :: rest, out) (op o) =
      (if priority top < priority o then .ok (o :: top :: rest, out)
       else .ok (o :: rest.dropWhile (is_popped o),
          out ++ op top :: (rest.takeWhile (is_popped o)).map op)) ∧
    (∀ x ∈ rest.takeWhile (is_popped o), x ≠ LeftBracket ∧ ¬ priority x < priority o) ∧
    (rest.dropWhile (is_popped o) = [] ∨
      (rest.dropWhile (is_popped o)).head? = some LeftBracket ∨
      ∃ y, (rest.dropWhile (is_popped o)).head? = some y ∧ priority y < priority o) := by
  have hst : RightBracket ∉ top :: rest := by
    intro h
    rcases List.mem_cons.1 h with e | e
    · rw [← e] at htop; simp [is_operator_arithmetic] at htop
    · exact hrest e
  have htl : top ≠ LeftBracket := (arith_ne_brackets top htop).1
  refine ⟨?_, ?_, ?_⟩
  · by_cases hp : priority top < priority o
    · simp [convert_token, ho, pop_for_operator_eq o ho _ _ hst, is_popped, hp, htl,
        List.takeWhile_cons, List.dropWhile_cons]
    · simp [convert_token, ho, pop_for_operator_eq o ho _ _ hst, is_popped, hp, htl,
        List.takeWhile_cons, List.dropWhile_cons]
  · intro x hx
    have := List.mem_takeWhile_imp hx
    simpa [is_popped] using this
  · cases hd : rest.dropWhile (is_popped o) with
    | nil => exact Or.inl rfl
    | cons y ys =>
      right
      have hy : is_popped o y = false := by
        have := List.head_dropWhile_not (is_popped o) rest (by simp [hd])
        simpa [hd] using this
      by_cases hyl : y = LeftBracket
      · left; simp [hyl]
      · right
        refine ⟨y, by simp, ?_⟩
        simpa [is_popped, hyl] using hy

/-- Witness of C13 (amended): `Division` arrives on the stack `Multiply, Plus` and pops
`Multiply` only; `Multiply` arrives on `Plus` and pops nothing. -/
theorem C13_pop_rule_witness :
    (is_operator_arithmetic Division = true ∧ is_operator_arithmetic Multiply = true ∧
      RightBracket ∉ [Plus]) ∧
    convert_token ([Multiply, Plus], [num 1, num 2, num 3]) (op Division)
      = .ok ([Division, Plus], [num 1, num 2, num 3, op Multiply]) ∧
    convert_token ([Plus], [num 1, num 2]) (op Multiply)
      = .ok ([Multiply, Plus], [num 1, num 2]) := by
  have h1 := (C13_pop_rule Division Multiply [Plus] [num 1, num 2, num 3] rfl rfl
    (by decide)).1
  have h2 := (C13_pop_rule Multiply Plus [] [num 1, num 2] rfl rfl (by decide)).1
  refine ⟨⟨rfl, rfl, by decide⟩, ?_, ?_⟩
  · rw [h1]; simp [priority, is_popped]
  · rw [h2]; simp [priority]

/-! ## C18: the postfix sequence rearranges the input -/

theorem count_op_map (o : Operator) (l : List Operator) :
    (l.map op).count (op o) = l.count o :=
  List.count_map_of_injective l op (fun a b h => by cases h; rfl) o

theorem filter_number_map (l : List Operator) : (l.map op).filter is_number = [] := by
  induction l with
  | nil => rfl
  | cons x xs ih => simp [List.filter_cons, is_number, ih]

/-- The conversion loop keeps the numbers in their order and keeps every arithmetic
operator, in the output or on the stack. -/
theorem convert_loop_rearranges (toks : List Token) (st : List Operator) (out : List Token)
    (hst : RightBracket ∉ st) (st1 : List Operator) (out1 : List Token)
    (h : convert_loop (st, out) toks = .ok (st1, out1)) :
    out1.filter is_number = out.filter is_number ++ toks.filter is_number ∧
    ∀ o, is_operator_arithmetic o = true →
      out1.count (op o) + st1.count o = out.count (op o) + st.count o + toks.count (op o) := by
  induction toks generalizing st out with
  | nil =>
    simp only [convert_loop] at h
    cases h
    simp
  | cons t ts ih =>
    rcases convert_token_cases st out t hst with
      ⟨v, ht, e⟩ | ⟨o1, popped, rest, ht, ho1, hs, hp, e⟩ | ⟨ht, e⟩ |
      ⟨popped, rest, ht, hs, hp, e⟩ | ⟨ht, ha, e⟩
    · subst ht
      simp only [convert_loop, e] at h
      obtain ⟨h1, h2⟩ := ih st _ hst h
      refine ⟨by simp [h1, List.filter_cons, is_number], fun o ho => ?_⟩
      have := h2 o ho
      simp at this ⊢
      omega
    · subst ht
      have hst1 := convert_token_no_rb st out (op o1) hst _ _ e
      simp only [convert_loop, e] at h
      obtain ⟨h1, h2⟩ := ih _ _ hst1 h
      refine ⟨by simp [h1, List.filter_cons, is_number, filter_number_map], fun o ho => ?_⟩
      have := h2 o ho
      rw [List.count_append, count_op_map] at this
      rw [hs, List.count_append]
      by_cases heq : o1 = o
      · subst heq
        simp at this ⊢
        omega
      · have heq1 : o ≠ o1 := fun e => heq e.symm
        have hne : (op o : Token) ≠ op o1 := fun e => heq (by cases e; rfl)
        rw [List.count_cons_of_ne heq1] at this
        rw [List.count_cons_of_ne hne]
        omega
    · subst ht
      have hst1 := convert_token_no_rb st out (op LeftBracket) hst _ _ e
      simp only [convert_loop, e] at h
      obtain ⟨h1, h2⟩ := ih _ _ hst1 h
      refine ⟨by simp [h1, List.filter_cons, is_number], fun o ho => ?_⟩
      have := h2 o ho
      have hne : o ≠ LeftBracket := fun e => by subst e; simp [is_operator_arithmetic] at ho
      have hne1 : (op o : Token) ≠ op LeftBracket := fun e => hne (by cases e; rfl)
      rw [List.count_cons_of_ne hne] at this
      rw [List.count_cons_of_ne hne1]
      omega
    · subst ht
      have hst1 := convert_token_no_rb st out (op RightBracket) hst _ _ e
      simp only [convert_loop, e] at h
      obtain ⟨h1, h2⟩ := ih _ _ hst1 h
      refine ⟨by simp [h1, List.filter_cons, is_number, filter_number_map], fun o ho => ?_⟩
      have := h2 o ho
      rw [List.count_append, count_op_map] at this
      have hne : o ≠ LeftBracket := fun e => by subst e; simp [is_operator_arithmetic] at ho
      have hne1 : (op o : Token) ≠ op RightBracket :=
        fun e => by cases e; simp [is_operator_arithmetic] at ho
      rw [hs, List.count_append, List.count_cons_of_ne hne]
      rw [List.count_cons_of_ne hne1]
      omega
    · simp only [convert_loop, e] at h
      cases h

/-- C18: when `convert_to_reverse_polish` succeeds, the numbers of the postfix sequence are
the numbers of the input in the same order, and every arithmetic operator occurs in the
postfix sequence as often as in the input; the postfix sequence is a permutation of the
input tokens that are no brackets. -/
theorem C18_rearrangement (toks rp : List Token)
    (h : convert_to_reverse_polish toks = .ok rp) :
    rp.filter is_number = toks.filter is_number ∧
    (∀ o, is_operator_arithmetic o = true → rp.count (op o) = toks.count (op o)) ∧
    rp.Perm (toks.filter fun t => decide (t ≠ op LeftBracket ∧ t ≠ op RightBracket)) := by
  unfold convert_to_reverse_polish at h
  cases hc : convert_loop ([], []) toks with
  | error e => rw [hc] at h; cases h
  | ok state =>
    obtain ⟨st1, out1⟩ := state
    rw [hc] at h
    simp only at h
    obtain ⟨h1, h2⟩ := convert_loop_rearranges toks [] [] (by simp) st1 out1 hc
    have hlb : LeftBracket ∉ st1 := by
      intro hm
      rw [drain_stack_error _ _ hm] at h
      cases h
    rw [drain_stack_ok _ _ hlb] at h
    cases h
    obtain ⟨hrb, hout, _⟩ := convert_loop_length toks [] [] (by simp) (by simp) st1 out1 hc
    have hnum : (out1 ++ st1.map op).filter is_number = toks.filter is_number := by
      simpa [filter_number_map] using h1
    have hops : ∀ o, is_operator_arithmetic o = true →
        (out1 ++ st1.map op).count (op o) = toks.count (op o) := by
      intro o ho
      have := h2 o ho
      rw [List.count_append, count_op_map]
      simpa using this
    have hbr : ∀ o, is_operator_arithmetic o = false → op o ∉ out1 ++ st1.map op := by
      intro o ho hm
      rcases List.mem_append.1 hm with h4 | h4
      · rcases not_arith_cases o ho with rfl | rfl
        · exact (hout _ h4).1 rfl
        · exact (hout _ h4).2 rfl
      · obtain ⟨x, hx, e⟩ := List.mem_map.1 h4
        cases e
        rcases not_arith_cases o ho with rfl | rfl
        · exact hlb hx
        · exact hrb hx
    refine ⟨hnum, hops, ?_⟩
    rw [List.perm_iff_count]
    intro t
    cases t with
    | num v =>
      have e1 : (out1 ++ st1.map op).count (num v)
          = ((out1 ++ st1.map op).filter is_number).count (num v) :=
        (List.count_filter (by simp [is_number])).symm
      have e2 : (toks.filter is_number).count (num v) = toks.count (num v) :=
        List.count_filter (by simp [is_number])
      rw [e1, hnum, e2]
      exact (List.count_filter (by simp)).symm
    | op o =>
      by_cases ho : is_operator_arithmetic o = true
      · rw [hops o ho]
        have hb := arith_ne_brackets o ho
        exact (List.count_filter (by simp [hb.1, hb.2])).symm
      · have ho1 : is_operator_arithmetic o = false := by simpa using ho
        rw [List.count_eq_zero.2 (hbr o ho1)]
        symm
        rw [List.count_eq_zero]
        intro hm
        have := (List.mem_filter.1 hm).2
        rcases not_arith_cases o ho1 with rfl | rfl <;> simp at this

/-- Witness of C18 on the tokens of "(1+2)*3-4". -/
theorem C18_rearrangement_witness :
    convert_to_reverse_polish
        [num 0, op Plus, op LeftBracket, num 1, op Plus, num 2, op RightBracket, op Multiply,
          num 3, op Minus, num 4]
      = .ok [num 0, num 1, num 2, op Plus, num 3, op Multiply, op Plus, num 4, op Minus] ∧
    ([num 0, num 1, num 2, op Plus, num 3, op Multiply, op Plus, num 4, op Minus].filter
        is_number
      = [num 0, op Plus, op LeftBracket, num 1, op Plus, num 2, op RightBracket, op Multiply,
          num 3, op Minus, num 4].filter is_number) ∧
    ([num 0, num 1, num 2, op Plus, num 3, op Multiply, op Plus, num 4, op Minus].count
        (op Plus)
      = [num 0, op Plus, op LeftBracket, num 1, op Plus, num 2, op RightBracket, op Multiply,
          num 3, op Minus, num 4].count (op Plus)) :=
  have hc : convert_to_reverse_polish
        [num 0, op Plus, op LeftBracket, num 1, op Plus, num 2, op RightBracket, op Multiply,
          num 3, op Minus, num 4]
      = .ok [num 0, num 1, num 2, op Plus, num 3, op Multiply, op Plus, num 4, op Minus] := by
    simp [convert_to_reverse_polish, convert_loop, convert_token, pop_for_operator,
      pop_for_bracket, drain_stack, is_operator_arithmetic, is_first_greater_priority]
  ⟨hc, (C18_rearrangement _ _ hc).1, (C18_rearrangement _ _ hc).2.1 Plus rfl⟩

/-! ## C11, C12: the buffers of the object do not influence a call -/

theorem scan_loop_on_eq (fuel : Nat) (s : List Char) (nr : List Token) :
    (∀ toks, scan_loop fuel s nr = .ok toks → scan_loop_on fuel s nr = (.ok (), toks)) ∧
    (∀ e, scan_loop fuel s nr = .error e → (scan_loop_on fuel s nr).1 = .error e) := by
  induction fuel generalizing s nr with
  | zero =>
    cases s with
    | nil => simp [scan_loop, scan_loop_on]
    | cons c cs => simp [scan_loop, scan_loop_on]
  | succ fuel ih =>
    cases s with
    | nil => simp [scan_loop, scan_loop_on]
    | cons c cs =>
      unfold scan_loop scan_loop_on
      split_ifs
      · exact ih _ _
      · exact ih _ _
      · exact ih _ _
      · exact ih _ _
      · exact ih _ _
      · exact ih _ _
      · exact ih _ _
      · cases hfc : from_chars (c :: cs) with
        | none => simp
        | some p =>
          obtain ⟨value, n⟩ := p
          exact ih _ _

theorem parse_normal_rotation_on_eq (self : Buffers) (str : List Char) :
    (∀ toks, parse_normal_rotation str = .ok toks →
      parse_normal_rotation_on self str = (.ok (), { self with normal_rotation := toks })) ∧
    (∀ e, parse_normal_rotation str = .error e →
      (parse_normal_rotation_on self str).1 = .error e) := by
  have h := scan_loop_on_eq str.length str
    (if str.head? ≠ some '+' ∧ str.head? ≠ some '-' then [num 0, op Plus] else [num 0])
  have hstart : (if str.head? ≠ some '+' ∧ str.head? ≠ some '-' then
        clear self.normal_rotation ++ [num 0, op Plus]
      else clear self.normal_rotation ++ [num 0])
      = (if str.head? ≠ some '+' ∧ str.head? ≠ some '-' then [num 0, op Plus] else [num 0]) := by
    simp [clear]
  unfold parse_normal_rotation parse_normal_rotation_on
  simp only [hstart]
  constructor
  · intro toks ht
    rw [h.1 toks ht]
  · intro e he
    exact h.2 e he

theorem pop_for_operator_on_eq (o : Operator) (stack : List Operator) (rp : List Token) :
    (∀ state, pop_for_operator o stack rp = .ok state →
      pop_for_operator_on o stack rp = (.ok (), state)) ∧
    (∀ e, pop_for_operator o stack rp = .error e →
      (pop_for_operator_on o stack rp).1 = .error e) := by
  induction stack generalizing rp with
  | nil => simp [pop_for_operator, pop_for_operator_on]
  | cons op2 st ih =>
    unfold pop_for_operator pop_for_operator_on
    split_ifs
    · simp
    · cases hg : is_first_greater_priority o op2 with
      | error e => simp
      | ok b =>
        cases b with
        | true => simp
        | false => exact ih _

theorem convert_token_on_eq (state : List Operator × List Token) (t : Token) :
    (∀ state1, convert_token state t = .ok state1 →
      convert_token_on state t = (.ok (), state1)) ∧
    (∀ e, convert_token state t = .error e → (convert_token_on state t).1 = .error e) := by
  cases t with
  | num v => simp [convert_token, convert_token_on]
  | op o =>
    simp only [convert_token, convert_token_on]
    split_ifs
    · have h := pop_for_operator_on_eq o state.1 state.2
      cases hp : pop_for_operator o state.1 state.2 with
      | error e =>
        have h2 := h.2 e hp
        cases hq : pop_for_operator_on o state.1 state.2 with
        | mk r s1 =>
          rw [hq] at h2
          simp only at h2
          subst h2
          simp
      | ok st1 =>
        rw [h.1 st1 hp]
        simp
    · simp
    · cases hb : pop_for_bracket state.1 state.2 with
      | mk stack rp =>
        cases stack with
        | nil => simp
        | cons x xs =>
          cases x <;> simp
    · simp

theorem convert_loop_on_eq (toks : List Token) (state : List Operator × List Token) :
    (∀ state1, convert_loop state toks = .ok state1 →
      convert_loop_on state toks = (.ok (), state1)) ∧
    (∀ e, convert_loop state toks = .error e → (convert_loop_on state toks).1 = .error e) := by
  induction toks generalizing state with
  | nil => simp [convert_loop, convert_loop_on]
  | cons t ts ih =>
    unfold convert_loop convert_loop_on
    have h := convert_token_on_eq state t
    cases hp : convert_token state t with
    | error e =>
      have h2 := h.2 e hp
      cases hq : convert_token_on state t with
      | mk r s1 =>
        rw [hq] at h2
        simp only at h2
        subst h2
        simp
    | ok st1 =>
      rw [h.1 st1 hp]
      exact ih st1

theorem drain_stack_on_eq (stack : List Operator) (rp : List Token) :
    (∀ out, drain_stack stack rp = .ok out → drain_stack_on stack rp = (.ok (), out)) ∧
    (∀ e, drain_stack stack rp = .error e → (drain_stack_on stack rp).1 = .error e) := by
  induction stack generalizing rp with
  | nil => simp [drain_stack, drain_stack_on]
  | cons x xs ih =>
    unfold drain_stack drain_stack_on
    split_ifs
    · simp
    · exact ih _

theorem convert_to_reverse_polish_on_eq (self : Buffers) :
    (∀ rp, convert_to_reverse_polish self.normal_rotation = .ok rp →
      convert_to_reverse_polish_on self = (.ok (), { self with reverse_polish := rp })) ∧
    (∀ e, convert_to_reverse_polish self.normal_rotation = .error e →
      (convert_to_reverse_polish_on self).1 = .error e) := by
  have h := convert_loop_on_eq self.normal_rotation ([], [])
  cases hp : convert_loop ([], []) self.normal_rotation with
  | error e =>
    have h2 := h.2 e hp
    cases hq : convert_loop_on ([], []) self.normal_rotation with
    | mk r s1 =>
      rw [hq] at h2
      simp only at h2
      subst h2
      simp [convert_to_reverse_polish, convert_to_reverse_polish_on, clear, hp, hq]
  | ok st1 =>
    obtain ⟨stack, out⟩ := st1
    have h1 := h.1 _ hp
    have hd := drain_stack_on_eq stack out
    constructor
    · intro rp hrp
      have hrp1 : drain_stack stack out = .ok rp := by
        simpa [convert_to_reverse_polish, hp] using hrp
      simp [convert_to_reverse_polish_on, clear, h1, hd.1 rp hrp1]
    · intro e he
      have he1 : drain_stack stack out = .error e := by
        simpa [convert_to_reverse_polish, hp] using he
      simp [convert_to_reverse_polish_on, clear, h1, hd.2 e he1]

/-- The outcome of a call on an object is the outcome computed from the string alone. -/
theorem Caluclate_on_outcome (absf : ℚ → ℚ) (self : Buffers) (str : List Char) :
    (Caluclate_on absf self str).1 = Caluclate absf str := by
  unfold Caluclate_on Caluclate
  split_ifs
  · rfl
  · cases hasc : check_on_ascii str with
    | error e => rfl
    | ok u =>
      simp only
      have hp := parse_normal_rotation_on_eq self (preprocess_str str)
      cases hpp : parse_normal_rotation (preprocess_str str) with
      | error e =>
        have h2 := hp.2 e hpp
        cases hq : parse_normal_rotation_on self (preprocess_str str) with
        | mk r s1 =>
          rw [hq] at h2
          simp only at h2
          subst h2
          rfl
      | ok toks =>
        rw [hp.1 toks hpp]
        simp only
        have hc := convert_to_reverse_polish_on_eq { self with normal_rotation := toks }
        simp only at hc
        cases hcp : convert_to_reverse_polish toks with
        | error e =>
          have h2 := hc.2 e hcp
          cases hq : convert_to_reverse_polish_on { self with normal_rotation := toks } with
          | mk r s1 =>
            rw [hq] at h2
            simp only at h2
            subst h2
            rfl
        | ok rp =>
          rw [hc.1 rp hcp]
          simp only
          cases calc_result_from_polish absf rp with
          | error e => rfl
          | ok res => rfl

/-- On an object, an input with a character whose code exceeds 127 fails with "Bad input,
supports only ascii characters" and leaves both buffers untouched: the check runs before
the tokenizer clears `normal_rotation`. -/
theorem Caluclate_on_not_ascii (absf : ℚ → ℚ) (self : Buffers) (str : List Char) (c : Char)
    (hc : c ∈ str) (h : c.toNat > 127) :
    Caluclate_on absf self str = (.error Error.not_ascii, self) := by
  have hne : str ≠ [] := by rintro rfl; simp at hc
  simp [Caluclate_on, hne, check_on_ascii_error str c hc h]

/-- C11: the outcome of `Caluclate` on an object depends on the input string only: it is
the same for any two contents of the buffers `normal_rotation` and `reverse_polish`, in
particular for the contents an earlier call left behind, and a failed call does leave
tokens behind (the call on "(1+2" is shown). -/
theorem C11_buffers_irrelevant (absf : ℚ → ℚ) (self1 self2 : Buffers) (str : List Char) :
    (Caluclate_on absf self1 str).1 = (Caluclate_on absf self2 str).1 ∧
    (∀ earlier : List Char,
      (Caluclate_on absf (Caluclate_on absf self1 earlier).2 str).1
        = (Caluclate_on absf self1 str).1) ∧
    (Caluclate_on absf self1 str).1 = Caluclate absf str ∧
    Caluclate_on absf { reverse_polish := [], normal_rotation := [] } "(1+2".toList
      = (.error Error.bad_parentheses,
          { reverse_polish := [num 0, num 1, num 2, op Plus],
            normal_rotation := [num 0, op Plus, op LeftBracket, num 1, op Plus, num 2] }) := by
  refine ⟨?_, ?_, Caluclate_on_outcome absf self1 str, ?_⟩
  · rw [Caluclate_on_outcome, Caluclate_on_outcome]
  · intro earlier
    rw [Caluclate_on_outcome, Caluclate_on_outcome]
  · simp [Caluclate_on, check_on_ascii, preprocess_str, parse_normal_rotation_on, scan_loop_on,
      clear, from_chars, int_part, frac_part, after_sign, after_int, has_point, point_text,
      after_frac, exp_sign_text, exp_digits, has_exponent, exp_text, literal_text,
      literal_value, sign_text, digits_to_nat, digit_value, convert_to_reverse_polish_on,
      convert_loop_on, convert_token_on, pop_for_operator_on, pop_for_bracket, drain_stack_on,
      is_operator_arithmetic, is_first_greater_priority]

/-- C12: `Caluclate` on the empty string fails with "Empty string"; on an object the call
returns before anything else is done, so both buffers are left as they were: no tokenizing
(which starts by clearing `normal_rotation`), no conversion, no evaluation. -/
theorem C12_empty_string (absf : ℚ → ℚ) (self : Buffers) :
    Caluclate absf "".toList = .error Error.empty_string ∧
    Caluclate_on absf self "".toList = (.error Error.empty_string, self) := by
  constructor
  · simp [Caluclate]
  · simp [Caluclate_on]

/-! ## C15: termination -/

/-- C15: `Caluclate` ends, on every input string, with a value or with a failure, and the
iteration bound of the scan loop is never used up: a space or an operator character
advances the scan by one character, a successful `from_chars` consumes at least one
character and no more than are left, and a failing `from_chars` ends the scan with
"Couldnt parse, bad character".  The loops of the converter and of the evaluator are
recursions on the token list and on the operator stack. -/
theorem C15_terminates (absf : ℚ → ℚ) (str : List Char) :
    ((∃ v, Caluclate absf str = .ok v) ∨
      (∃ e, Caluclate absf str = .error e ∧ e ≠ Error.no_fuel)) ∧
    (∀ (s : List Char) (v : ℚ) (n : Nat), from_chars s = some (v, n) →
      1 ≤ n ∧ n ≤ s.length ∧ (s.drop n).length < s.length) ∧
    (∀ (fuel : Nat) (c : Char) (cs : List Char) (acc : List Token),
      c ≠ ' ' → c ≠ '+' → c ≠ '-' → c ≠ '*' → c ≠ '/' → c ≠ '(' → c ≠ ')' →
      from_chars (c :: cs) = none →
        scan_loop (fuel + 1) (c :: cs) acc = .error Error.bad_character) ∧
    (∀ (fuel : Nat) (cs : List Char) (acc : List Token),
      scan_loop (fuel + 1) (' ' :: cs) acc = scan_loop fuel cs acc ∧
      scan_loop (fuel + 1) ('+' :: cs) acc = scan_loop fuel cs (acc ++ [op Plus]) ∧
      scan_loop (fuel + 1) ('-' :: cs) acc = scan_loop fuel cs (acc ++ [op Minus]) ∧
      scan_loop (fuel + 1) ('*' :: cs) acc = scan_loop fuel cs (acc ++ [op Multiply]) ∧
      scan_loop (fuel + 1) ('/' :: cs) acc = scan_loop fuel cs (acc ++ [op Division]) ∧
      scan_loop (fuel + 1) ('(' :: cs) acc = scan_loop fuel cs (acc ++ [op LeftBracket]) ∧
      scan_loop (fuel + 1) (')' :: cs) acc = scan_loop fuel cs (acc ++ [op RightBracket])) := by
  refine ⟨?_, ?_, ?_, ?_⟩
  · have hfuel := parse_normal_rotation_fuel (preprocess_str str)
    have hconv : ∀ toks, convert_to_reverse_polish toks ≠ .error Error.no_fuel := by
      intro toks
      rcases convert_to_reverse_polish_depth toks with ⟨_, h⟩ | ⟨_, rp, h⟩ <;> rw [h] <;> simp
    have hstep : ∀ st t, calc_step absf st t ≠ .error Error.no_fuel := by
      intro st t
      cases t with
      | num v => simp [calc_step]
      | op o =>
        simp only [calc_step]
        split_ifs
        · rcases st with _ | ⟨a, _ | ⟨b, rest⟩⟩
          · simp
          · simp
          · cases o <;> simp [apply_operator]
            split_ifs <;> simp
        · simp
    have hloop : ∀ toks st, calc_loop absf st toks ≠ .error Error.no_fuel := by
      intro toks
      induction toks with
      | nil => intro st; simp [calc_loop]
      | cons t ts ih =>
        intro st
        unfold calc_loop
        cases hs : calc_step absf st t with
        | error e =>
          have := hstep st t
          rw [hs] at this
          simpa using this
        | ok st1 => exact ih st1
    have hcalc : ∀ rp, calc_result_from_polish absf rp ≠ .error Error.no_fuel := by
      intro rp
      unfold calc_result_from_polish
      split_ifs
      · simp
      · cases hl : calc_loop absf [] rp with
        | error e =>
          have := hloop rp []
          rw [hl] at this
          simpa using this
        | ok st =>
          rcases st with _ | ⟨a, _ | ⟨b, rest⟩⟩ <;> simp
    have hne : Caluclate absf str ≠ .error Error.no_fuel := by
      unfold Caluclate
      split_ifs
      · simp
      · cases hasc : check_on_ascii str with
        | error e =>
          have : e = Error.not_ascii := by
            clear hfuel
            induction str with
            | nil => simp [check_on_ascii] at hasc
            | cons c cs ih =>
              unfold check_on_ascii at hasc
              split_ifs at hasc
              · cases hasc; rfl
              · by_cases hcs : cs = []
                · subst hcs; simp [check_on_ascii] at hasc
                · exact ih hcs hasc
          subst this
          simp
        | ok u =>
          simp only
          cases hp : parse_normal_rotation (preprocess_str str) with
          | error e =>
            rw [hp] at hfuel
            simpa using hfuel
          | ok toks =>
            simp only
            cases hc : convert_to_reverse_polish toks with
            | error e =>
              have := hconv toks
              rw [hc] at this
              simpa using this
            | ok rp => exact hcalc rp
    cases hres : Caluclate absf str with
    | ok v => exact Or.inl ⟨v, rfl⟩
    | error e =>
      right
      refine ⟨e, rfl, ?_⟩
      intro he
      subst he
      exact hne hres
  · intro s v n h
    obtain ⟨hn, L, R, hLR, hLn, _⟩ := from_chars_consumed s v n h
    have hlen : s.length = L.length + R.length := by rw [hLR]; simp
    refine ⟨hn, by omega, ?_⟩
    simp
    omega
  · intro fuel c cs acc h1 h2 h3 h4 h5 h6 h7 hfc
    simp [scan_loop, h1, h2, h3, h4, h5, h6, h7, hfc]
  · intro fuel cs acc
    simp [scan_loop]

/-! ## C16 and C1: the divisor test with the `int` version of `abs` -/

/-- The `int` version of `abs` is `0` on every value of magnitude below `1`. -/
theorem abs_int_below_one (x : ℚ) (h : |x| < 1) : abs_int x = 0 := by
  have hden : (0 : ℚ) < x.den := by exact_mod_cast x.den_pos
  have h2 : |(x.num : ℚ)| < x.den := by
    have hx : x = (x.num : ℚ) / x.den := (Rat.num_div_den x).symm
    rw [hx, abs_div, abs_of_pos hden, div_lt_one hden] at h
    exact h
  have h3 : |x.num| < (x.den : ℤ) := by exact_mod_cast h2
  have h4 : Int.tdiv x.num (x.den : ℤ) = 0 := by
    rcases abs_lt.1 h3 with ⟨hl, hr⟩
    by_cases hn : 0 ≤ x.num
    · exact Int.tdiv_eq_zero_of_lt hn hr
    · have hn1 : 0 ≤ -x.num := by omega
      have := Int.tdiv_eq_zero_of_lt hn1 (by omega : -x.num < (x.den : ℤ))
      rw [Int.neg_tdiv] at this
      omega
  simp [abs_int, h4]

/-- With the magnitude for `abs`, a divisor of magnitude at least `1e-9` is accepted. -/
theorem calc_division_abs_double (a b : ℚ) (ha : ¬ |a| < 1 / 1000000000) :
    calc_result_from_polish abs_double [num b, num a, op Division] = .ok (b / a) := by
  have hd : ¬ abs_double a < eps := by simpa [abs_double, eps] using ha
  simp [calc_result_from_polish, calc_loop, calc_step, apply_operator, is_operator_arithmetic,
    hd]

/-- C16 (failing inputs): with the `int` version of `abs`, which is what the unqualified
call names when the headers of the GNU C++ library are used, every divisor of magnitude
below `1` is rejected: `[b, a, Division]` fails with "Division by zero", although the
magnitude of `a` can be far above `1e-9`. -/
theorem C16_divisor_below_one (a b : ℚ) (ha : |a| < 1) :
    calc_result_from_polish abs_int [num b, num a, op Division]
      = .error Error.division_by_zero := by
  simp [calc_result_from_polish, calc_loop, calc_step, apply_operator, is_operator_arithmetic,
    abs_int_below_one a ha, eps]

/-- Witness of C16 (failing inputs) at the divisors `0.5` and `-0.25` of the claim, and on
the input "1/0.5". -/
theorem C16_divisor_below_one_witness :
    (|(1 / 2 : ℚ)| < 1 ∧ ¬ |(1 / 2 : ℚ)| < 1 / 1000000000 ∧
      calc_result_from_polish abs_int [num 1, num (1 / 2), op Division]
        = .error Error.division_by_zero) ∧
    (|(-1 / 4 : ℚ)| < 1 ∧ ¬ |(-1 / 4 : ℚ)| < 1 / 1000000000 ∧
      calc_result_from_polish abs_int [num 1, num (-1 / 4), op Division]
        = .error Error.division_by_zero) ∧
    parse_normal_rotation "1/0.5".toList
      = .ok [num 0, op Plus, num 1, op Division, num (1 / 2)] ∧
    convert_to_reverse_polish [num 0, op Plus, num 1, op Division, num (1 / 2)]
      = .ok [num 0, num 1, num (1 / 2), op Division, op Plus] ∧
    Caluclate abs_int "1/0.5".toList = .error Error.division_by_zero ∧
    Caluclate abs_double "1/0.5".toList = .ok 2 := by
  have h1 : |(1 / 2 : ℚ)| < 1 := by norm_num [abs_lt]
  have h2 : |(-1 / 4 : ℚ)| < 1 := by norm_num [abs_lt]
  have hparse : parse_normal_rotation "1/0.5".toList
      = .ok [num 0, op Plus, num 1, op Division, num (1 / 2)] := by
    simp [parse_normal_rotation, scan_loop, from_chars, int_part, frac_part, after_sign,
      after_int, has_point, point_text, after_frac, exp_sign_text, exp_digits, has_exponent,
      exp_text, literal_text, literal_value, sign_text, digits_to_nat, digit_value]
    norm_num
  have hconv : convert_to_reverse_polish [num 0, op Plus, num 1, op Division, num (1 / 2)]
      = .ok [num 0, num 1, num (1 / 2), op Division, op Plus] := by
    simp [convert_to_reverse_polish, convert_loop, convert_token, pop_for_operator,
      drain_stack, is_operator_arithmetic, is_first_greater_priority]
  have hne : ¬ ("1/0.5".toList = []) := by decide
  have hasc : check_on_ascii "1/0.5".toList = .ok () := by simp [check_on_ascii]
  have hpre : preprocess_str "1/0.5".toList = "1/0.5".toList := by decide
  have hint : abs_int (1 / 2) < eps := by
    rw [abs_int_below_one _ h1]; norm_num [eps]
  have hdbl : ¬ abs_double (1 / 2) < eps := by norm_num [abs_double, eps, abs_lt]
  have hcalc_int : calc_result_from_polish abs_int
      [num 0, num 1, num (1 / 2), op Division, op Plus] = .error Error.division_by_zero := by
    simp only [calc_result_from_polish, calc_loop, calc_step, apply_operator,
      is_operator_arithmetic, hint]
    simp
  have hcalc_dbl : calc_result_from_polish abs_double
      [num 0, num 1, num (1 / 2), op Division, op Plus] = .ok 2 := by
    have hdbl1 : ¬ abs_double 2⁻¹ < eps := by simpa using hdbl
    simp [calc_result_from_polish, calc_loop, calc_step, apply_operator,
      is_operator_arithmetic, hdbl1]
  refine ⟨⟨h1, by norm_num [abs_lt], C16_divisor_below_one (1 / 2) 1 h1⟩,
    ⟨h2, by norm_num [abs_lt], C16_divisor_below_one (-1 / 4) 1 h2⟩, hparse, hconv, ?_, ?_⟩
  · unfold Caluclate
    rw [if_neg hne, hasc]
    simp only
    rw [hpre, hparse]
    simp only
    rw [hconv]
    exact hcalc_int
  · unfold Caluclate
    rw [if_neg hne, hasc]
    simp only
    rw [hpre, hparse]
    simp only
    rw [hconv]
    exact hcalc_dbl

/-- C1 (failing input): on the tokens of "1/0.5", a sequence of the grammar whose only
divisor has magnitude `0.5`, the conversion succeeds and the evaluation, with the `int`
version of `abs`, fails with "Division by zero", where the claim gives the value `2` of the
tree. -/
theorem C1_divisor_below_one :
    in_grammar 2 tree_of_half_divisor = true ∧
    has_tiny_divisor tree_of_half_divisor = false ∧
    tree_value tree_of_half_divisor = 2 ∧
    parse_normal_rotation "1/0.5".toList = .ok (expr_tokens tree_of_half_divisor) ∧
    ∃ rp, convert_to_reverse_polish (expr_tokens tree_of_half_divisor) = .ok rp ∧
      calc_result_from_polish abs_int rp = .error Error.division_by_zero := by
  have hg : in_grammar 2 tree_of_half_divisor = true := by decide
  have hhalf : abs_int (1 / 2) < eps := by
    rw [abs_int_below_one _ (by norm_num [abs_lt])]; norm_num [eps]
  refine ⟨hg, ?_, ?_, ?_, ?_⟩
  · norm_num [has_tiny_divisor, tree_value, tree_of_half_divisor, abs_lt]
  · norm_num [tree_value, tree_of_half_divisor]
  · simp [parse_normal_rotation, scan_loop, from_chars, int_part, frac_part, after_sign,
      after_int, has_point, point_text, after_frac, exp_sign_text, exp_digits, has_exponent,
      exp_text, literal_text, literal_value, sign_text, digits_to_nat, digit_value,
      expr_tokens, tree_of_half_divisor]
    norm_num
  · obtain ⟨rp, h1, h2⟩ := calc_convert_expr abs_int tree_of_half_divisor hg
    refine ⟨rp, h1, ?_⟩
    rw [h2]
    have hf : division_fails abs_int tree_of_half_divisor = true := by
      have hhalf1 : abs_int 2⁻¹ < eps := by simpa using hhalf
      simp only [division_fails, tree_of_half_divisor, tree_value]
      simp [hhalf1]
    rw [if_pos hf]

end Calculator
